import Mathlib

/-!
# udp-over-tcp: address codec, framing layer, session table and relay engines

A shallow embedding of `LocalThirdParty/udp-over-tcp` (`socks.go`, `uot.go`,
`client.go`, `nat.go`, `server.go`).  Go byte slices and strings are lists of bytes, a
stream is the list of bytes it still has to deliver together with the error it
reports once they are used up, and every Go function that touches a stream
returns the new stream state next to its Go results.  A run-time panic (slice
bounds out of range) is an explicit outcome.
-/

namespace uot

/-! ## Bytes, errors, outcomes -/

/-- A Go `byte`. -/
abbrev Byte := Fin 256

/-- Go conversion `byte(n)` of a non-negative `int`: the low eight bits. -/
def byte (n : Nat) : Byte := ⟨n % 256, Nat.mod_lt _ (by decide)⟩

/-- The error values the package produces or passes through. -/
inductive Err
  /-- Go `io.EOF` -/
  | EOF
  /-- Go `io.ErrUnexpectedEOF` -/
  | ErrUnexpectedEOF
  /-- Go `io.ErrShortBuffer` -/
  | ErrShortBuffer
  /-- Go `errors.New("error socks address")` in `ReadSocksAddr` -/
  | errorSocksAddress
  /-- Go `errors.New("invalid address")` in `resloveSocksAddr` -/
  | invalidAddress
  /-- Go `errors.New("over max packet size")` in `defaultConn.Write` -/
  | overMaxPacketSize
  /-- Go `os.ErrDeadlineExceeded` -/
  | ErrDeadlineExceeded
  /-- Go `net.ErrClosed` -/
  | ErrClosed
  /-- any other error of the operating system or of a collaborator -/
  | other (code : Nat)
  /-- an error that wraps another one, such as `*net.OpError` -/
  | wrap (op : Nat) (inner : Err)
  deriving DecidableEq, Repr

/-- Outcome of a Go call returning `(α, error)` that may also panic. -/
inductive Outcome (α : Type)
  | ok (a : α)
  | error (e : Err)
  | panicked
  deriving DecidableEq, Repr

/-! ## Streams and `io.ReadFull` -/

/-- An `io.Reader`: the bytes it will still deliver, and the error its `Read`
returns once they are exhausted (`io.EOF` for a stream that simply ends). -/
structure Reader where
  data : List Byte
  fin : Err := Err.EOF
  deriving DecidableEq, Repr

/-- Go `io.ReadFull(r, p)` with `len(p) = k`: the bytes stored in `p` (their
number is the returned `n`), the returned error, and the reader afterwards.
When fewer than `k` bytes are left they are all consumed; the error is
`io.ErrUnexpectedEOF` if the reader ended with `io.EOF` after at least one byte,
and the reader's own error otherwise. -/
def ReadFull (r : Reader) (k : Nat) : List Byte × Option Err × Reader :=
  if k ≤ r.data.length then
    (r.data.take k, none, { r with data := r.data.drop k })
  else
    (r.data,
     some (if r.fin = Err.EOF ∧ r.data ≠ [] then Err.ErrUnexpectedEOF else r.fin),
     { r with data := [] })

/-- The buffer `buf` after `bs` has been stored at offset `lo`. -/
def put (buf : List Byte) (lo : Nat) (bs : List Byte) : List Byte :=
  buf.take lo ++ bs ++ buf.drop (lo + bs.length)

/-- Go `io.ReadFull(r, buf[lo:hi])`: `none` is the slice-bounds panic of
`buf[lo:hi]` (`hi` beyond the capacity, or `lo > hi`); otherwise the buffer
with the bytes read stored at `lo`, the count `nn`, the error and the reader. -/
def readInto (r : Reader) (buf : List Byte) (lo hi : Nat) :
    Option (List Byte × Nat × Option Err × Reader) :=
  if lo ≤ hi ∧ hi ≤ buf.length then
    match ReadFull r (hi - lo) with
    | (bs, err, r') => some (put buf lo bs, bs.length, err, r')
  else none

/-- Go `make([]byte, n)`: `n` zero bytes. -/
def make (n : Nat) : List Byte := List.replicate n 0

/-! ## `socks.go` -/

/-- A `SocksAddr` is a byte slice. -/
abbrev SocksAddr := List Byte

def maxAddrLen : Nat := 1 + 1 + 255

def atypIPv4 : Nat := 1
def atypDomainName : Nat := 3
def atypIPv6 : Nat := 4

/-- The tail of `ReadSocksAddr` after the `switch`: the error check, the
2-byte port read into `buf[n:n+2]` whose error is not inspected, and the
result `buf[:n], nil`. -/
def readPort (buf : List Byte) (n nn : Nat) (err : Option Err) (r : Reader) :
    Outcome SocksAddr × Reader :=
  match err with
  | some e => (Outcome.error e, r)
  | none =>
    let n := n + nn
    match readInto r buf n (n + 2) with
    | none => (Outcome.panicked, r)
    | some (buf, nn, _, r) =>
      let n := n + nn
      if n ≤ buf.length then (Outcome.ok (buf.take n), r) else (Outcome.panicked, r)

/-- Go `ReadSocksAddr(r)`. -/
def ReadSocksAddr (r : Reader) : Outcome SocksAddr × Reader :=
  let buf : List Byte := make maxAddrLen
  match readInto r buf 0 1 with
  | none => (Outcome.panicked, r)
  | some (_, _, some e, r) => (Outcome.error e, r)
  | some (buf, nn, none, r) =>
    let n := nn
    let atyp := (buf.getD 0 0).val
    if atyp = atypDomainName then
      match readInto r buf 1 2 with
      | none => (Outcome.panicked, r)
      | some (_, _, some e, r) => (Outcome.error e, r)
      | some (buf, nn, none, r) =>
        let n := n + nn
        match readInto r buf 2 (2 + (buf.getD 1 0).val) with
        | none => (Outcome.panicked, r)
        | some (buf, nn, err, r) => readPort buf n nn err r
    else if atyp = atypIPv4 then
      match readInto r buf 1 (1 + 4) with
      | none => (Outcome.panicked, r)
      | some (buf, nn, err, r) => readPort buf n nn err r
    else if atyp = atypIPv6 then
      match readInto r buf 1 (1 + 16) with
      | none => (Outcome.panicked, r)
      | some (buf, nn, err, r) => readPort buf n nn err r
    else
      readPort buf n nn (some Err.errorSocksAddress) r

/-- The three library functions `ParseSocksAddr` calls, taken as parameters:
`net.SplitHostPort` (`none` is a non-nil error), `net.ParseIP` (`none` is the
nil result) and `strconv.ParseUint(port, 10, 16)` (`none` is a non-nil error). -/
structure NetLib where
  SplitHostPort : List Byte → Option (List Byte × List Byte)
  ParseIP : List Byte → Option (List Byte)
  ParseUint : List Byte → Option Nat

/-- Go `net.IP.To4`: a 4-byte address is returned as is, a 16-byte
IPv4-mapped address gives its last four bytes, anything else is nil. -/
def To4 (ip : List Byte) : Option (List Byte) :=
  if ip.length = 4 then some ip
  else if ip.length = 16 ∧ (ip.take 10).all (fun b => b = 0) ∧
      ip.getD 10 0 = 255 ∧ ip.getD 11 0 = 255 then
    some ((ip.drop 12).take 4)
  else none

/-- Go builtin `copy(dst, src)`: the new contents of `dst`. -/
def copy (dst src : List Byte) : List Byte :=
  src.take dst.length ++ dst.drop (src.take dst.length).length

/-- Go `ParseSocksAddr(s)`; `none` is the nil result. -/
def ParseSocksAddr (lib : NetLib) (s : List Byte) : Option SocksAddr :=
  match lib.SplitHostPort s with
  | none => none
  | some (host, port) =>
    let addr : Option (List Byte) :=
      match lib.ParseIP host with
      | some ip =>
        match To4 ip with
        | some ip4 =>
          let addr := (make (1 + 4 + 2)).set 0 (byte atypIPv4)
          some (addr.take 1 ++ copy (addr.drop 1) ip4)
        | none =>
          let addr := (make (1 + 16 + 2)).set 0 (byte atypIPv6)
          some (addr.take 1 ++ copy (addr.drop 1) ip)
      | none =>
        if host.length > 255 then none
        else
          let addr := (make (1 + 1 + host.length + 2)).set 0 (byte atypDomainName)
          let addr := addr.set 1 (byte host.length)
          some (addr.take 2 ++ copy (addr.drop 2) host)
    match addr with
    | none => none
    | some addr =>
      match lib.ParseUint port with
      | none => none
      | some portnum =>
        some ((addr.set (addr.length - 2) (byte (portnum >>> 8))).set
          (addr.length - 1) (byte portnum))

/-- A concrete instance of the library parameter, used to run the codec on
sample inputs: the endpoint is split at its last colon, no host is an IP
literal, and the port is read as an unsigned decimal number below 65536. -/
def sampleLib : NetLib where
  SplitHostPort := fun s =>
    match s.reverse.span (fun b => b ≠ 58) with
    | (p, _ :: h) => some (h.reverse, p.reverse)
    | (_, []) => none
  ParseIP := fun _ => none
  ParseUint := fun p =>
    if p ≠ [] ∧ p.all (fun b => 48 ≤ b.val ∧ b.val ≤ 57) then
      let v := p.foldl (fun acc b => 10 * acc + (b.val - 48)) 0
      if v < 65536 then some v else none
    else none

/-! ## `uot.go` -/

/-- Go `MaxPacketSize`: 65535 - 20 (IP header) - 8 (UDP header). -/
def MaxPacketSize : Nat := 65535 - 20 - 8

/-- One end of a `net.Conn`: the stream of bytes the peer has sent and this
end has not read yet, the bytes this end has written so far, and the outcomes
of the coming calls of `Write` (`some e` is a call that fails with `e` and
writes nothing; when the list is used up every call succeeds). -/
structure NetConn where
  rd : Reader
  wr : List Byte
  wfault : List (Option Err) := []
  deriving DecidableEq, Repr

/-- Go `net.Conn.Write(b)`: the returned `(n, err)` and the connection. -/
def NetConn.Write (c : NetConn) (b : List Byte) : (Nat × Option Err) × NetConn :=
  match c.wfault with
  | some e :: fs => ((0, some e), { c with wfault := fs })
  | none :: fs => ((b.length, none), { c with wr := c.wr ++ b, wfault := fs })
  | [] => ((b.length, none), { c with wr := c.wr ++ b })

/-- A `net.Addr` value. -/
inductive NetAddr
  /-- Go `uot.targetAddr`, a socks address -/
  | targetAddr (a : SocksAddr)
  /-- Go `*net.UDPAddr` -/
  | UDPAddr (ip : List Byte) (port : Nat)
  /-- Go `*net.TCPAddr` -/
  | TCPAddr (ip : List Byte) (port : Nat)
  /-- any other implementation, with its `Network()` and `String()` -/
  | other (network str : List Byte)
  deriving DecidableEq, Repr

/-- Go `defaultConn`: a `net.Conn` tagged with its side. -/
structure defaultConn where
  Conn : NetConn
  isClient : Bool
  deriving DecidableEq, Repr

/-- Go `DefaultOutConn(conn)`. -/
def DefaultOutConn (conn : NetConn) : defaultConn := ⟨conn, true⟩

/-- Go `DefaultInConn(conn)`. -/
def DefaultInConn (conn : NetConn) : defaultConn := ⟨conn, false⟩

/-- Go `(*defaultConn).Handshake(addr)`: the returned `(net.Addr, error)` (a nil
address is `none`) and the connection afterwards.  `ResolveUDPAddr` is
`net.ResolveUDPAddr`, taken as a parameter; the statements that wrote or read
the socks address are commented out in the source and so are absent here. -/
def defaultConn.Handshake
    (ResolveUDPAddr : String → String → Option NetAddr × Option Err)
    (c : defaultConn) (addr : Option NetAddr) :
    (Option NetAddr × Option Err) × defaultConn :=
  if c.isClient then
    ((addr, none), c)
  else
    (ResolveUDPAddr "udp" "109.200.208.201:443", c)

/-- Go `(*defaultConn).Read(b)`: the returned `(n, err)`, the contents of `b`
afterwards and the connection afterwards.  The slices `b[:2]` and `b[:n]` are
in range by the two length tests that precede them. -/
def defaultConn.Read (c : defaultConn) (b : List Byte) :
    (Nat × Option Err) × List Byte × defaultConn :=
  if b.length < 2 then
    ((0, some Err.ErrShortBuffer), b, c)
  else
    match ReadFull c.Conn.rd 2 with
    | (hd, some e, r) => ((0, some e), put b 0 hd, { c with Conn := { c.Conn with rd := r } })
    | (hd, none, r) =>
      let b := put b 0 hd
      let c := { c with Conn := { c.Conn with rd := r } }
      let n := ((b.getD 0 0).val <<< 8) ||| (b.getD 1 0).val
      if b.length < n then
        ((0, some Err.ErrShortBuffer), b, c)
      else
        match ReadFull c.Conn.rd n with
        | (bs, err, r) =>
          ((bs.length, err), put b 0 bs, { c with Conn := { c.Conn with rd := r } })

/-- Go `(*defaultConn).Write(b)`: the returned `(n, err)` and the connection
afterwards. -/
def defaultConn.Write (c : defaultConn) (b : List Byte) :
    (Nat × Option Err) × defaultConn :=
  let n := b.length
  if n + 2 > MaxPacketSize then
    ((0, some Err.overMaxPacketSize), c)
  else
    match c.Conn.Write [byte (n >>> 8), byte (n &&& 0x000000ff)] with
    | ((_, some e), conn) => ((0, some e), { c with Conn := conn })
    | ((_, none), conn) =>
      match conn.Write b with
      | (res, conn) => (res, { c with Conn := conn })

/-- The next `k` calls of `Write` on the connection succeed. -/
def NetConn.nextWritesSucceed (c : NetConn) (k : Nat) : Prop :=
  ∀ f ∈ c.wfault.take k, f = none

/-- The bytes of one packet on the wire, as the protocol comment of `uot.go`
gives them: `[size][payload]`, the size in two bytes, high byte first. -/
def frame (payload : List Byte) : List Byte :=
  [byte (payload.length / 256), byte (payload.length % 256)] ++ payload

/-- The bytes of a sequence of packets on the wire, one frame after the other. -/
def frames : List (List Byte) → List Byte
  | [] => []
  | p :: ps => frame p ++ frames ps

/-- The payloads written one after the other with `defaultConn.Write`: the
result of each call and the connection afterwards. -/
def writeAll (c : defaultConn) : List (List Byte) → List (Nat × Option Err) × defaultConn
  | [] => ([], c)
  | p :: ps =>
    match c.Write p with
    | (res, c) =>
      match writeAll c ps with
      | (rs, c) => (res :: rs, c)

/-- Successive calls (`k` of them) of `defaultConn.Read` on the same buffer, as in the
relay loops: for each call the returned `(n, err)`, the prefix `b[:n]` and the
number of bytes the call took from the stream; and the connection afterwards. -/
def readAll (c : defaultConn) (b : List Byte) :
    Nat → List ((Nat × Option Err) × List Byte × Nat) × defaultConn
  | 0 => ([], c)
  | k + 1 =>
    match c.Read b with
    | (res, b', c') =>
      match readAll c' b' k with
      | (rs, c'') =>
        ((res, b'.take res.1, c.Conn.rd.data.length - c'.Conn.rd.data.length) :: rs, c'')

/-! ## `nat.go` -/

/-- A `chan []byte` handle; `none` is the nil channel. -/
abbrev Chan := Option Nat

/-- Go `nat`: the map from the peer address string to its packet channel
(the mutex is not modelled: every method body runs under it). -/
structure nat where
  m : String → Option Chan

/-- Go `(*nat).Get(key)`: `n.m[key]`, nil for an absent key. -/
def nat.Get (n : nat) (key : String) : Chan :=
  match n.m key with
  | some buf => buf
  | none => none

/-- Go `(*nat).Set(key, buf)`. -/
def nat.Set (n : nat) (key : String) (buf : Chan) : nat :=
  ⟨fun k => if k = key then some buf else n.m k⟩

/-- Go `(*nat).Del(key)`: the returned channel and the table afterwards. -/
def nat.Del (n : nat) (key : String) : Chan × nat :=
  match n.m key with
  | some buf => (buf, ⟨fun k => if k = key then none else n.m k⟩)
  | none => (none, n)

/-! ## `client.go` -/

def packetBufSize : Int := 2048

/-- Go `Client`: the fields that hold configuration values. -/
structure Client where
  BufSize : Int
  deriving DecidableEq, Repr

/-- Go `(*Client).bufSize()`. -/
def Client.bufSize (c : Client) : Int :=
  if c.BufSize > 0 then c.BufSize else packetBufSize

/-- The part of one iteration of the loop of `Client.Serve` that finds or
creates the session of the peer `key`: the table afterwards, the channel the
payload is offered to, and whether a session goroutine was started.  `fresh`
is the channel `make(chan []byte, c.bufSize())` returns. -/
def Client.serveSession (t : nat) (key : String) (fresh : Nat) : nat × Chan × Bool :=
  match t.Get key with
  | none => (t.Set key (some fresh), some fresh, true)
  | some pbuf => (t, some pbuf, false)

/-- The session goroutine started by `Client.Serve`, by the errors its three
calls return in this run: `dialErr` from `c.Dialer(server)`, `handshakeErr`
from `rc.Handshake(target)` and `relayErr` from `c.relay(...)` (only logged).
Returns the table afterwards and whether `rc.Close()` ran. -/
def Client.sessionWorker (dialErr handshakeErr relayErr : Option Err) (key : String)
    (t : nat) : nat × Bool :=
  match dialErr with
  | some _ => (t, false)
  | none =>
    match handshakeErr with
    | some _ => (t, true)
    | none =>
      match relayErr with
      | some _ => ((t.Del key).2, true)
      | none => ((t.Del key).2, true)

/-! ## `socks.go` and `uot.go`: address to string and back -/

/-- The three library functions `SocksAddr.String` calls, taken as parameters:
`net.IP(b).String()`, `strconv.Itoa` and `net.JoinHostPort`. -/
structure StrLib where
  IPString : List Byte → List Byte
  Itoa : Nat → List Byte
  JoinHostPort : List Byte → List Byte → List Byte

/-- Go slice expression `s[lo:hi]` on a slice whose capacity is its length;
`none` is the slice-bounds panic. -/
def slice (s : List Byte) (lo hi : Nat) : Option (List Byte) :=
  if lo ≤ hi ∧ hi ≤ s.length then some ((s.take hi).drop lo) else none

/-- Go `SocksAddr.String()`; `none` is a panic (index or slice out of range, or
`panic("error socks address")`). -/
def SocksAddr.String (lib : StrLib) (addr : SocksAddr) : Option (List Byte) :=
  match addr with
  | [] => none
  | t :: _ =>
    let host : Option (List Byte) :=
      if t.val = atypDomainName then
        match addr[1]? with
        | none => none
        | some l => slice addr 2 (2 + l.val)
      else if t.val = atypIPv4 then
        (slice addr 1 (1 + 4)).map lib.IPString
      else if t.val = atypIPv6 then
        (slice addr 1 (1 + 16)).map lib.IPString
      else none
    match host with
    | none => none
    | some host =>
      if addr.length < 2 then none
      else
        match slice addr (addr.length - 2) addr.length with
        | none => none
        | some buf =>
          let port := lib.Itoa (((buf.getD 0 0).val <<< 8) ||| (buf.getD 1 0).val)
          some (lib.JoinHostPort host port)

/-- Go `resloveSocksAddr(addr)`: the returned `(SocksAddr, error)`, a nil
address being `none`.  `addrString` is the method `String()` of the addresses
that are not a `targetAddr`. -/
def resloveSocksAddr (lib : NetLib) (addrString : NetAddr → List Byte) (addr : NetAddr) :
    Option SocksAddr × Option Err :=
  match addr with
  | NetAddr.targetAddr a => (some a, none)
  | _ =>
    match ParseSocksAddr lib (addrString addr) with
    | none => (none, some Err.invalidAddress)
    | some socksAddr => (some socksAddr, none)

/-- Go `(*defaultPacketConn).ReadPacket(p)`: the returned
`(n, target, addr, err)` and the contents of `p` afterwards.  The call
`c.PacketConn.ReadFrom(p)` delivers the datagram `datagram` sent by `sender`,
or fails with `readErr`; `ResolveTCPAddr` is `net.ResolveTCPAddr`, taken as a
parameter, whose error is not inspected.  The statements that read the socks
address from the packet are commented out in the source and so are absent. -/
def defaultPacketConn.ReadPacket
    (ResolveTCPAddr : String → String → Option NetAddr × Option Err)
    (datagram : List Byte) (sender : NetAddr) (readErr : Option Err) (p : List Byte) :
    (Nat × Option NetAddr × Option NetAddr × Option Err) × List Byte :=
  match readErr with
  | some e => ((0, none, none, some e), p)
  | none =>
    let n := min p.length datagram.length
    let p := copy p datagram
    let head := 3
    if p.length < head then
      ((0, none, none, some Err.ErrShortBuffer), p)
    else
      match ResolveTCPAddr "tcp" "127.0.0.1:8888" with
      | (target, _) => ((n, target, some sender, none), p)

/-! ## `client.go` and `server.go`: the end of `relay` -/

/-- Go `errors.Is(err, target)` for a non-nil `err`: `err` is `target` or wraps
an error that is. -/
def Err.Is : Err → Err → Bool
  | Err.wrap op inner, target => Err.wrap op inner == target || inner.Is target
  | e, target => e == target

/-- Go `errors.Is(err, target)`, `none` being the nil error. -/
def errorsIs (err : Option Err) (target : Err) : Bool :=
  match err with
  | none => false
  | some e => e.Is target

/-- The main loop of `Client.relay` and of `Server.relay`, by the errors of
the two calls of each iteration (`rc.Read` and `conn.WritePacket` in the
client, `rc.ReadFrom` and `conn.Write` in the server): the error the loop
breaks with, or `none` while it has not left the loop.  The second call of an
iteration is made only when the first returned no error. -/
def relayLoop : List (Option Err × Option Err) → Option Err
  | [] => none
  | (some e, _) :: _ => some e
  | (none, some e) :: _ => some e
  | (none, none) :: steps => relayLoop steps

/-- The last statements of `Client.relay`: `err` is the error the main loop
ended with, `err1` the error received from `done`. -/
def Client.relayResult (err err1 : Option Err) : Option Err :=
  if !errorsIs err Err.ErrDeadlineExceeded then err
  else if !errorsIs err1 Err.ErrDeadlineExceeded then err1
  else none

/-- The last statements of `Server.relay`: `err` is the error the main loop
ended with, `err1` the error received from `done`. -/
def Server.relayResult (err err1 : Option Err) : Option Err :=
  if !errorsIs err Err.ErrDeadlineExceeded then err
  else if !errorsIs err1 Err.ErrDeadlineExceeded then err1
  else none

/-- Go `(*Server).relay`: its result when it returns, `none` while the main
loop runs.  `resolveErr` is the error of `net.ResolveUDPAddr` when `addr` is
not a `*net.UDPAddr`, `steps` are the iterations of the main loop, `err1` is
what the downlink goroutine sends on `done`. -/
def Server.relay (addr : NetAddr) (resolveErr : Option Err)
    (steps : List (Option Err × Option Err)) (err1 : Option Err) : Option (Option Err) :=
  let resolved : Option Err :=
    match addr with
    | NetAddr.UDPAddr _ _ => none
    | _ => resolveErr
  match resolved with
  | some e => some (some e)
  | none =>
    match relayLoop steps with
    | none => none
    | some err => some (Server.relayResult (some err) err1)

/-! ## `client.go`: the session queue and the uplink goroutine -/

/-- A `chan []byte` with its buffer: the capacity it was made with and the
values queued in it, oldest first.  A value is a byte slice, `none` being the
nil slice. -/
structure PacketChan where
  cap : Nat
  queue : List (Option (List Byte))
  deriving DecidableEq, Repr

/-- Go `select { case pbuf <- b: default: }`: the send that does not block.
Returns the channel and whether the value was sent. -/
def PacketChan.trySend (ch : PacketChan) (b : Option (List Byte)) : PacketChan × Bool :=
  if ch.queue.length < ch.cap then ({ ch with queue := ch.queue ++ [b] }, true)
  else (ch, false)

/-- The end of one iteration of the loop of `Client.Serve`, for a datagram of
`n` bytes read into `buf`: `b := make([]byte, n); copy(b, buf)` and the send
that does not block.  Returns the channel and whether the packet was queued
(`false`: the packet is dropped and the drop is logged). -/
def Client.enqueue (ch : PacketChan) (buf : List Byte) (n : Nat) : PacketChan × Bool :=
  ch.trySend (some (copy (make n) buf))

/-- One session of the client: its queue, its tunnel connection, what the
uplink goroutine has sent on `done` (`none` while it runs), and two history
lists: the values accepted by the queue and the values the uplink has
received, both in order. -/
structure Session where
  pbuf : PacketChan
  rc : defaultConn
  done : Option (Option Err)
  kept : List (Option (List Byte))
  taken : List (Option (List Byte))

/-- What can happen to a session: a datagram of `n` bytes arrives in `buf`; the
uplink goroutine runs the `<-pbuf` case of its `select`; its idle timer fires;
the downlink runs `pbuf <- nil`. -/
inductive Event
  | packet (buf : List Byte) (n : Nat)
  | uplink
  | timer
  | sentinel
  deriving DecidableEq, Repr

/-- One event of a session.  An uplink that finds the queue empty stays
blocked in its `select`, a `pbuf <- nil` that finds the queue full stays
blocked in the send: both leave the session as it is. -/
def Session.step (s : Session) : Event → Session
  | Event.packet buf n =>
    match Client.enqueue s.pbuf buf n with
    | (ch, true) => { s with pbuf := ch, kept := s.kept ++ [some (copy (make n) buf)] }
    | (ch, false) => { s with pbuf := ch }
  | Event.uplink =>
    match s.done with
    | some _ => s
    | none =>
      match s.pbuf.queue with
      | [] => s
      | none :: rest =>
        { s with pbuf := { s.pbuf with queue := rest }, done := some none,
                 taken := s.taken ++ [none] }
      | some buf :: rest =>
        match s.rc.Write buf with
        | ((_, some e), rc) =>
          { s with pbuf := { s.pbuf with queue := rest }, rc := rc, done := some (some e),
                   taken := s.taken ++ [some buf] }
        | ((_, none), rc) =>
          { s with pbuf := { s.pbuf with queue := rest }, rc := rc,
                   taken := s.taken ++ [some buf] }
  | Event.timer =>
    match s.done with
    | some _ => s
    | none => { s with done := some none }
  | Event.sentinel =>
    if s.pbuf.queue.length < s.pbuf.cap then
      { s with pbuf := { s.pbuf with queue := s.pbuf.queue ++ [none] },
               kept := s.kept ++ [none] }
    else s

/-- A sequence of events of a session. -/
def Session.run (s : Session) (evs : List Event) : Session :=
  evs.foldl Session.step s

/-- The byte slices among queued values, the nil values left out. -/
def payloads (vs : List (Option (List Byte))) : List (List Byte) :=
  vs.filterMap id

/-- The statement `pbuf <- nil` of `Client.relay`, a send that blocks while the
queue is full: `evs` is what the other goroutines of the session do from then
on.  As soon as the queue has room the nil value is queued; `none` when the
queue is still full after all of `evs`, the send still blocked.  Returns the
session after the send and the events not yet used. -/
def Client.sendSentinel : Session → List Event → Option (Session × List Event)
  | s, [] =>
    if s.pbuf.queue.length < s.pbuf.cap then some (s.step Event.sentinel, []) else none
  | s, ev :: evs =>
    if s.pbuf.queue.length < s.pbuf.cap then some (s.step Event.sentinel, ev :: evs)
    else Client.sendSentinel (s.step ev) evs

/-- The statement `err1 := <-done` of `Client.relay`, a receive that blocks
until the uplink goroutine has sent on `done`: the value received, `none` when
the uplink has still not sent after all of `evs`. -/
def Client.awaitDone : Session → List Event → Option (Option Err)
  | s, [] => s.done
  | s, ev :: evs =>
    match s.done with
    | some err1 => some err1
    | none => Client.awaitDone (s.step ev) evs

/-- Go `(*Client).relay`: its result when it returns, `none` when it does not
(the main loop runs, the send `pbuf <- nil` is blocked, or nothing arrives on
`done`).  `steps` are the iterations of the main loop, `s` is the session when
the main loop ends, and `evs` is what the other goroutines of the session, the
ingress and the uplink, do from then on; the only `pbuf <- nil` is the one of
`relay` itself, so such events are left out of `evs`. -/
def Client.relay (steps : List (Option Err × Option Err)) (s : Session) (evs : List Event) :
    Option (Option Err) :=
  match relayLoop steps with
  | none => none
  | some err =>
    match Client.sendSentinel s (evs.filter (fun ev => ev ≠ Event.sentinel)) with
    | none => none
    | some (s, evs) =>
      match Client.awaitDone s evs with
      | none => none
      | some err1 => some (Client.relayResult (some err) err1)

/-- The bounded FIFO of the specification, the reference the session of the
code is compared with: the payloads waiting, oldest first, and the payloads
transmitted so far, in order. -/
structure SpecFifo where
  queued : List (List Byte)
  sent : List (List Byte)
  deriving DecidableEq, Repr

/-- One event on the FIFO of the specification with capacity `K`: an arriving
payload (the first `n` bytes of `buf`) is appended at the tail when fewer than
`K` payloads wait and is dropped otherwise; the uplink takes the oldest waiting
payload and transmits it.  The other events do not concern the FIFO. -/
def SpecFifo.step (K : Nat) (q : SpecFifo) : Event → SpecFifo
  | Event.packet buf n =>
    if q.queued.length < K then { q with queued := q.queued ++ [buf.take n] } else q
  | Event.uplink =>
    match q.queued with
    | [] => q
    | p :: rest => { queued := rest, sent := q.sent ++ [p] }
  | Event.timer => q
  | Event.sentinel => q

/-- A sequence of events on the FIFO of the specification. -/
def SpecFifo.run (K : Nat) (q : SpecFifo) (evs : List Event) : SpecFifo :=
  evs.foldl (SpecFifo.step K) q

/-- The events of the queue itself, with a datagram that fits its buffer and
that `Write` accepts: an arrival of `n <= len(buf)` bytes with `n + 2` at most
`MaxPacketSize`, or an uplink step. -/
def Event.relayable : Event → Prop
  | Event.packet buf n => n ≤ buf.length ∧ n + 2 ≤ MaxPacketSize
  | Event.uplink => True
  | Event.timer => False
  | Event.sentinel => False

/-- The events of the queue itself, with a datagram that fits its buffer: an
arrival of `n <= len(buf)` bytes, or an uplink step. -/
def Event.queueEvent : Event → Prop
  | Event.packet buf n => n ≤ buf.length
  | Event.uplink => True
  | Event.timer => False
  | Event.sentinel => False

/-! ## `server.go`: the operations of `Serve` on its two sockets -/

/-- The two sockets of a server flow. -/
inductive Sock
  | conn
  | rc
  deriving DecidableEq, Repr

/-- The methods `Server.Serve` and `Server.relay` call on them. -/
inductive SockOp
  | Handshake
  | RemoteAddr
  | Read
  | Write
  | ReadFrom
  | WriteTo
  | SetReadDeadline
  | Close
  deriving DecidableEq, Repr

/-- The calls of the goroutine of `Server.relay`, by the errors of the two
calls of each iteration (`conn.Read`, `rc.WriteTo`); after the error that ends
it, the deferred `rc.SetReadDeadline`. -/
def Server.downlinkOps : List (Option Err × Option Err) → List (Sock × SockOp)
  | [] => []
  | (some _, _) :: _ => [(Sock.conn, SockOp.Read), (Sock.rc, SockOp.SetReadDeadline)]
  | (none, some _) :: _ =>
    [(Sock.conn, SockOp.Read), (Sock.rc, SockOp.WriteTo), (Sock.rc, SockOp.SetReadDeadline)]
  | (none, none) :: steps =>
    (Sock.conn, SockOp.Read) :: (Sock.rc, SockOp.WriteTo) :: Server.downlinkOps steps

/-- The calls of the main loop of `Server.relay`, by the errors of the two
calls of each iteration (`rc.ReadFrom`, `conn.Write`); after the error that
ends it, `conn.SetReadDeadline`. -/
def Server.uplinkOps : List (Option Err × Option Err) → List (Sock × SockOp)
  | [] => []
  | (some _, _) :: _ => [(Sock.rc, SockOp.ReadFrom), (Sock.conn, SockOp.SetReadDeadline)]
  | (none, some _) :: _ =>
    [(Sock.rc, SockOp.ReadFrom), (Sock.conn, SockOp.Write), (Sock.conn, SockOp.SetReadDeadline)]
  | (none, none) :: steps =>
    (Sock.rc, SockOp.ReadFrom) :: (Sock.conn, SockOp.Write) :: Server.uplinkOps steps

/-- Go `(*Server).Serve(conn)`: what it returns (`none` when it does not
return: `relay` still runs, or a nil address made `addr.String()` panic), the
calls it makes itself on the two sockets, in order, and the calls of the
goroutine of `relay`.  `handshake` is the result of `conn.Handshake(nil)`,
`listenErr` the error of `net.ListenPacket`, `resolveErr` the error of
`net.ResolveUDPAddr` in `relay`, `up` and `down` the iterations of the main
loop and of the goroutine of `relay`, `err1` the error the goroutine sends on
`done`.  The `relay` of an empty main loop returns only by its early return,
when the address had to be resolved and that failed: no goroutine is started. -/
def Server.Serve (handshake : Option NetAddr × Option Err) (listenErr resolveErr : Option Err)
    (up down : List (Option Err × Option Err)) (err1 : Option Err) :
    Option (Option Err) × List (Sock × SockOp) × List (Sock × SockOp) :=
  match handshake with
  | (_, some e) => (some (some e), [(Sock.conn, SockOp.Handshake)], [])
  | (addr, none) =>
    match listenErr with
    | some e => (some (some e), [(Sock.conn, SockOp.Handshake)], [])
    | none =>
      match addr with
      | none => (none, [(Sock.conn, SockOp.Handshake), (Sock.conn, SockOp.RemoteAddr)], [])
      | some addr =>
        match Server.relay addr resolveErr [] err1 with
        | some res =>
          (some res, [(Sock.conn, SockOp.Handshake), (Sock.conn, SockOp.RemoteAddr)], [])
        | none =>
          (Server.relay addr resolveErr up err1,
            [(Sock.conn, SockOp.Handshake), (Sock.conn, SockOp.RemoteAddr)] ++
              Server.uplinkOps up,
            Server.downlinkOps down)

/-! ## Lemmas on streams and buffers -/

theorem ReadFull_append (bs rest : List Byte) (fin : Err) :
    ReadFull ⟨bs ++ rest, fin⟩ bs.length = (bs, none, ⟨rest, fin⟩) := by
  simp [ReadFull]

theorem put_append (acc pad bs : List Byte) :
    put (acc ++ pad) acc.length bs = acc ++ bs ++ pad.drop bs.length := by
  simp [put, List.take_append_eq_append_take, List.drop_append_eq_append_drop]

theorem readInto_append (acc pad bs rest : List Byte) (fin : Err)
    (h : bs.length ≤ pad.length) :
    readInto ⟨bs ++ rest, fin⟩ (acc ++ pad) acc.length (acc.length + bs.length) =
      some (acc ++ bs ++ pad.drop bs.length, bs.length, none, ⟨rest, fin⟩) := by
  unfold readInto
  have h1 : acc.length ≤ acc.length + bs.length ∧
      acc.length + bs.length ≤ (acc ++ pad).length := by
    simp; omega
  rw [if_pos h1]
  have h2 : acc.length + bs.length - acc.length = bs.length := by omega
  rw [h2, ReadFull_append]
  simp only [put_append]

theorem make_length (n : Nat) : (make n).length = n := by
  simp [make]

/-- The port read of `ReadSocksAddr` when the two port bytes are on the stream
and fit in the buffer. -/
theorem readPort_ok (acc pad port rest : List Byte) (fin : Err) (n nn : Nat)
    (hn : n + nn = acc.length) (hp : port.length = 2) (hpad : 2 ≤ pad.length) :
    readPort (acc ++ pad) n nn none ⟨port ++ rest, fin⟩ =
      (Outcome.ok (acc ++ port), ⟨rest, fin⟩) := by
  unfold readPort
  have e := readInto_append acc pad port rest fin (by omega)
  rw [hp] at e
  simp only [hn, e]
  have h2 : acc.length + 2 = (acc ++ port).length := by simp [hp]
  have h3 : (acc ++ port).length ≤ (acc ++ port ++ List.drop 2 pad).length := by simp
  rw [if_pos (by rw [h2]; exact h3), h2, List.take_left]

/-- The port read of `ReadSocksAddr` panics when fewer than two bytes of the
buffer are left after the host. -/
theorem readPort_panic (buf : List Byte) (r : Reader) (n nn : Nat)
    (h : buf.length < n + nn + 2) :
    readPort buf n nn none r = (Outcome.panicked, r) := by
  unfold readPort readInto
  have h1 : ¬ (n + nn ≤ n + nn + 2 ∧ n + nn + 2 ≤ buf.length) := by omega
  simp only [if_neg h1]

/-- The first read of `ReadSocksAddr`: the tag byte. -/
theorem readInto_tag (t : Byte) (rest : List Byte) (fin : Err) :
    readInto ⟨t :: rest, fin⟩ (make maxAddrLen) 0 1 =
      some ([t] ++ (make maxAddrLen).drop 1, 1, none, ⟨rest, fin⟩) := by
  have hlen : ([t] : List Byte).length ≤ (make maxAddrLen).length := by
    rw [make_length]; simp [maxAddrLen]
  have e := readInto_append [] (make maxAddrLen) [t] rest fin hlen
  simpa using e

/-- What `ReadSocksAddr` does on a stream that starts with a fixed-size address: tag
`atyp` (IPv4 or IPv6), `k` host bytes (4 or 16) and two port bytes. -/
theorem ReadSocksAddr_ip (t : Byte) (k : Nat) (ip port rest : List Byte) (fin : Err)
    (ht : (t.val = atypIPv4 ∧ k = 4) ∨ (t.val = atypIPv6 ∧ k = 16))
    (hip : ip.length = k) (hp : port.length = 2) :
    ReadSocksAddr ⟨t :: (ip ++ (port ++ rest)), fin⟩ =
      (Outcome.ok (t :: (ip ++ port)), ⟨rest, fin⟩) := by
  unfold ReadSocksAddr
  dsimp only
  rw [readInto_tag]
  dsimp only
  have hk : k ≤ 16 := by omega
  have hlen : ip.length ≤ ((make maxAddrLen).drop 1).length := by
    rw [hip, List.length_drop, make_length]; simp [maxAddrLen]; omega
  have e := readInto_append [t] ((make maxAddrLen).drop 1) ip (port ++ rest) fin hlen
  simp only [List.length_singleton, List.drop_drop, hip] at e
  have hpad : 2 ≤ ((make maxAddrLen).drop (1 + k)).length := by
    rw [List.length_drop, make_length]; simp [maxAddrLen]; omega
  have hport := readPort_ok ([t] ++ ip) ((make maxAddrLen).drop (1 + k)) port rest fin 1 k
    (by simp [hip]; omega) hp hpad
  have hget : ([t] ++ List.drop 1 (make maxAddrLen)).getD 0 0 = t := rfl
  rw [hget]
  rcases ht with ⟨ht, rfl⟩ | ⟨ht, rfl⟩
  · rw [ht, if_neg (by decide), if_pos rfl, e]
    dsimp only
    rw [hport]; rfl
  · rw [ht, if_neg (by decide), if_neg (by decide), if_pos rfl, e]
    dsimp only
    rw [hport]; rfl

theorem byte_val_of_lt (n : Nat) (h : n < 256) : (byte n).val = n := by
  simp [byte, Nat.mod_eq_of_lt h]

/-- The reads of the domain branch of `ReadSocksAddr` up to the port: tag,
length byte and host arrive, for every host the length byte can announce. -/
theorem ReadSocksAddr_domain_port (t l : Byte) (host tail : List Byte) (fin : Err)
    (ht : t.val = atypDomainName) (hl : l.val = host.length) :
    ReadSocksAddr ⟨t :: l :: (host ++ tail), fin⟩ =
      readPort ([t, l] ++ host ++ (make maxAddrLen).drop (2 + host.length))
        (1 + 1) host.length none ⟨tail, fin⟩ := by
  have h255 : host.length ≤ 255 := by have := l.isLt; omega
  unfold ReadSocksAddr
  dsimp only
  rw [readInto_tag]
  dsimp only
  have hget : ([t] ++ List.drop 1 (make maxAddrLen)).getD 0 0 = t := rfl
  rw [hget, ht, if_pos rfl]
  have hlen1 : ([l] : List Byte).length ≤ ((make maxAddrLen).drop 1).length := by
    rw [List.length_drop, make_length]; simp [maxAddrLen]
  have e1 := readInto_append [t] ((make maxAddrLen).drop 1) [l] (host ++ tail) fin hlen1
  simp only [List.length_singleton, List.drop_drop, Nat.reduceAdd] at e1
  have e1a : readInto ⟨l :: (host ++ tail), fin⟩ ([t] ++ List.drop 1 (make maxAddrLen)) 1 2 =
      some ([t, l] ++ List.drop 2 (make maxAddrLen), 1, none, ⟨host ++ tail, fin⟩) := e1
  rw [e1a]
  dsimp only
  have hget1 : ([t, l] ++ List.drop 2 (make maxAddrLen)).getD 1 0 = l := rfl
  have hlen : host.length ≤ ((make maxAddrLen).drop 2).length := by
    rw [List.length_drop, make_length]; simp [maxAddrLen]; omega
  have e := readInto_append [t, l] ((make maxAddrLen).drop 2) host tail fin hlen
  simp only [List.length_cons, List.length_nil, List.drop_drop, Nat.reduceAdd] at e
  rw [hget1, hl, e]

/-- What `ReadSocksAddr` does on a stream that starts with a domain address whose host
has at most 253 bytes. -/
theorem ReadSocksAddr_domain (t l : Byte) (host port rest : List Byte) (fin : Err)
    (ht : t.val = atypDomainName) (hl : l.val = host.length)
    (hp : port.length = 2) (h : host.length ≤ 253) :
    ReadSocksAddr ⟨t :: l :: (host ++ (port ++ rest)), fin⟩ =
      (Outcome.ok (t :: l :: (host ++ port)), ⟨rest, fin⟩) := by
  rw [ReadSocksAddr_domain_port t l host (port ++ rest) fin ht hl]
  have hpad : 2 ≤ ((make maxAddrLen).drop (2 + host.length)).length := by
    rw [List.length_drop, make_length]; simp [maxAddrLen]; omega
  rw [readPort_ok ([t, l] ++ host) _ port rest fin (1 + 1) host.length
    (by simp; omega) hp hpad]
  rfl

/-- What `ReadSocksAddr` does on a stream that starts with a domain address whose host
has 254 or 255 bytes: the port slice `buf[n:n+2]` is out of range. -/
theorem ReadSocksAddr_domain_panic (t l : Byte) (host tail : List Byte) (fin : Err)
    (ht : t.val = atypDomainName) (hl : l.val = host.length) (h : 254 ≤ host.length) :
    ReadSocksAddr ⟨t :: l :: (host ++ tail), fin⟩ = (Outcome.panicked, ⟨tail, fin⟩) := by
  have h255 : host.length ≤ 255 := by have := l.isLt; omega
  rw [ReadSocksAddr_domain_port t l host tail fin ht hl]
  apply readPort_panic
  simp only [List.length_append, List.length_cons, List.length_nil, List.length_drop,
    make_length, maxAddrLen]
  omega

/-! ## Lemmas on `ParseSocksAddr` -/

theorem copy_of_le (dst src : List Byte) (h : src.length ≤ dst.length) :
    copy dst src = src ++ dst.drop src.length := by
  unfold copy
  rw [List.take_of_length_le h]

theorem copy_length (dst src : List Byte) : (copy dst src).length = dst.length := by
  unfold copy
  simp only [List.length_append, List.length_take, List.length_drop]
  omega

/-- Storing the two port bytes in the last two cells of a slice. -/
theorem set_port (addr : List Byte) (m : Nat) (x y : Byte) (h : addr.length = m + 2) :
    (addr.set (addr.length - 2) x).set (addr.length - 1) y = addr.take m ++ [x, y] := by
  have hd : (addr.drop m).length = 2 := by rw [List.length_drop]; omega
  obtain ⟨a, b, hab⟩ : ∃ a b, addr.drop m = [a, b] := by
    match hq : addr.drop m, hd with
    | [a, b], _ => exact ⟨a, b, rfl⟩
  have hsplit : addr = addr.take m ++ [a, b] := by
    rw [← hab, List.take_append_drop]
  have hm : (addr.take m).length = m := by rw [List.length_take]; omega
  generalize addr.take m = pre at hsplit hm
  subst hsplit
  subst hm
  simp [List.set_append]

theorem To4_length (ip ip4 : List Byte) (h : To4 ip = some ip4) : ip4.length = 4 := by
  unfold To4 at h
  split at h
  · cases h; assumption
  · split at h
    · rename_i h16
      cases h
      rw [List.length_take, List.length_drop]
      omega
    · cases h

theorem make_succ (n : Nat) : make (n + 1) = 0 :: make n := by
  simp [make, List.replicate_succ]

/-- What `ParseSocksAddr` returns for a host that is not an IP literal. -/
theorem ParseSocksAddr_domain (lib : NetLib) (s host port : List Byte) (portnum : Nat)
    (hs : lib.SplitHostPort s = some (host, port)) (hip : lib.ParseIP host = none)
    (hlen : host.length ≤ 255) (hport : lib.ParseUint port = some portnum) :
    ParseSocksAddr lib s =
      some ([byte atypDomainName, byte host.length] ++ host ++
        [byte (portnum >>> 8), byte portnum]) := by
  unfold ParseSocksAddr
  simp only [hs, hip, hport, if_neg (Nat.not_lt.mpr hlen)]
  have h1 : 1 + 1 + host.length + 2 = (host.length + 2) + 1 + 1 := by omega
  rw [h1, make_succ, make_succ]
  simp only [List.set_cons_zero, List.set_cons_succ, List.take_succ_cons, List.take_zero,
    List.drop_succ_cons, List.drop_zero]
  rw [copy_of_le _ _ (by rw [make_length]; omega)]
  have hlen2 : ([byte atypDomainName, byte host.length] ++
      (host ++ List.drop host.length (make (host.length + 2)))).length =
      (2 + host.length) + 2 := by
    simp only [List.length_append, List.length_cons, List.length_nil, List.length_drop,
      make_length]
    omega
  rw [set_port _ _ _ _ hlen2]
  congr 1
  have h2 : 2 + host.length = ([byte atypDomainName, byte host.length] ++ host).length := by
    simp only [List.length_append, List.length_cons, List.length_nil]
  rw [h2, ← List.append_assoc, List.take_left]

/-- What `ParseSocksAddr` returns for an IPv4 host. -/
theorem ParseSocksAddr_ipv4 (lib : NetLib) (s host port ip ip4 : List Byte) (portnum : Nat)
    (hs : lib.SplitHostPort s = some (host, port)) (hip : lib.ParseIP host = some ip)
    (h4 : To4 ip = some ip4) (hport : lib.ParseUint port = some portnum) :
    ParseSocksAddr lib s =
      some ([byte atypIPv4] ++ ip4 ++ [byte (portnum >>> 8), byte portnum]) := by
  have hl := To4_length ip ip4 h4
  unfold ParseSocksAddr
  simp only [hs, hip, h4, hport]
  rw [show 1 + 4 + 2 = 6 + 1 from rfl, make_succ]
  simp only [List.set_cons_zero, List.take_succ_cons, List.take_zero,
    List.drop_succ_cons, List.drop_zero]
  rw [copy_of_le _ _ (by rw [make_length]; omega)]
  have hlen2 : ([byte atypIPv4] ++ (ip4 ++ List.drop ip4.length (make 6))).length = 5 + 2 := by
    simp only [List.length_append, List.length_cons, List.length_nil, List.length_drop,
      make_length]
    omega
  rw [set_port _ _ _ _ hlen2]
  congr 1
  have h2 : 5 = ([byte atypIPv4] ++ ip4).length := by
    simp only [List.length_append, List.length_cons, List.length_nil, hl]
  rw [h2, ← List.append_assoc, List.take_left]

/-- What `ParseSocksAddr` returns for an IP host that is not IPv4: the tag,
the first 16 bytes of the zero-filled slice the address was copied into, and
the port. -/
theorem ParseSocksAddr_ipv6 (lib : NetLib) (s host port ip : List Byte) (portnum : Nat)
    (hs : lib.SplitHostPort s = some (host, port)) (hip : lib.ParseIP host = some ip)
    (h4 : To4 ip = none) (hport : lib.ParseUint port = some portnum) :
    ParseSocksAddr lib s =
      some ([byte atypIPv6] ++ (copy (make 18) ip).take 16 ++
        [byte (portnum >>> 8), byte portnum]) := by
  unfold ParseSocksAddr
  simp only [hs, hip, h4, hport]
  rw [show 1 + 16 + 2 = 18 + 1 from rfl, make_succ]
  simp only [List.set_cons_zero, List.take_succ_cons, List.take_zero,
    List.drop_succ_cons, List.drop_zero]
  have hlen2 : ([byte atypIPv6] ++ copy (make 18) ip).length = 17 + 2 := by
    simp only [List.length_append, List.length_cons, List.length_nil, copy_length,
      make_length]
  rw [set_port _ _ _ _ hlen2]
  rfl

/-! ## C1: address round trip -/

/-- Round trip on the part of the domain where it holds: every address
`ParseSocksAddr` returns is read back unchanged by `ReadSocksAddr`, the rest of
the stream left in place, provided a host that is not an IP literal has at most
253 bytes. -/
theorem ReadSocksAddr_ParseSocksAddr (lib : NetLib) (s enc rest : List Byte) (fin : Err)
    (h : ParseSocksAddr lib s = some enc)
    (hdom : ∀ host port, lib.SplitHostPort s = some (host, port) →
      lib.ParseIP host = none → host.length ≤ 253) :
    ReadSocksAddr ⟨enc ++ rest, fin⟩ = (Outcome.ok enc, ⟨rest, fin⟩) := by
  cases hs : lib.SplitHostPort s with
  | none => simp [ParseSocksAddr, hs] at h
  | some hp =>
    obtain ⟨host, port⟩ := hp
    cases hport : lib.ParseUint port with
    | none =>
      unfold ParseSocksAddr at h
      simp only [hs, hport] at h
      split at h <;> cases h
    | some portnum =>
      cases hip : lib.ParseIP host with
      | none =>
        have h253 := hdom host port hs hip
        rw [ParseSocksAddr_domain lib s host port portnum hs hip (by omega) hport] at h
        cases h
        simp only [List.cons_append, List.nil_append, List.append_assoc]
        exact ReadSocksAddr_domain (byte atypDomainName) (byte host.length) host
          [byte (portnum >>> 8), byte portnum] rest fin rfl
          (byte_val_of_lt _ (by omega)) rfl h253
      | some ip =>
        cases h4 : To4 ip with
        | some ip4 =>
          rw [ParseSocksAddr_ipv4 lib s host port ip ip4 portnum hs hip h4 hport] at h
          cases h
          simp only [List.cons_append, List.nil_append, List.append_assoc]
          exact ReadSocksAddr_ip (byte atypIPv4) 4 ip4 [byte (portnum >>> 8), byte portnum]
            rest fin (Or.inl ⟨rfl, rfl⟩) (To4_length ip ip4 h4) rfl
        | none =>
          rw [ParseSocksAddr_ipv6 lib s host port ip portnum hs hip h4 hport] at h
          cases h
          simp only [List.cons_append, List.nil_append, List.append_assoc]
          exact ReadSocksAddr_ip (byte atypIPv6) 16 ((copy (make 18) ip).take 16)
            [byte (portnum >>> 8), byte portnum] rest fin (Or.inr ⟨rfl, rfl⟩)
            (by rw [List.length_take, copy_length, make_length]; rfl) rfl

/-- C1 (fails on the code): for an endpoint whose host is a domain name of 254
or 255 bytes, `ParseSocksAddr` returns an encoded address, and `ReadSocksAddr`
on a stream holding exactly those bytes does not return them: after the host it
slices `buf[n:n+2]` beyond the `maxAddrLen`-byte buffer and panics, the two
port bytes still unread. -/
theorem ReadSocksAddr_ParseSocksAddr_long_domain (lib : NetLib) (s host port : List Byte)
    (portnum : Nat) (rest : List Byte) (fin : Err)
    (hs : lib.SplitHostPort s = some (host, port)) (hip : lib.ParseIP host = none)
    (h254 : 254 ≤ host.length) (h255 : host.length ≤ 255)
    (hport : lib.ParseUint port = some portnum) :
    ∃ enc, ParseSocksAddr lib s = some enc ∧
      ReadSocksAddr ⟨enc ++ rest, fin⟩ =
        (Outcome.panicked, ⟨[byte (portnum >>> 8), byte portnum] ++ rest, fin⟩) := by
  refine ⟨_, ParseSocksAddr_domain lib s host port portnum hs hip h255 hport, ?_⟩
  have := ReadSocksAddr_domain_panic (byte atypDomainName) (byte host.length) host
    ([byte (portnum >>> 8), byte portnum] ++ rest) fin rfl
    (byte_val_of_lt _ (by omega)) h254
  simpa using this

set_option maxRecDepth 100000 in
/-- Witness for C1: the endpoint made of 254 letters `a`, a colon and `80`. -/
theorem ReadSocksAddr_ParseSocksAddr_long_domain_witness :
    ∃ enc, ParseSocksAddr sampleLib (List.replicate 254 97 ++ [58, 56, 48]) = some enc ∧
      ReadSocksAddr ⟨enc ++ [], Err.EOF⟩ =
        (Outcome.panicked, ⟨[byte (80 >>> 8), byte 80] ++ [], Err.EOF⟩) :=
  ReadSocksAddr_ParseSocksAddr_long_domain sampleLib (List.replicate 254 97 ++ [58, 56, 48])
    (List.replicate 254 97) [56, 48] 80 [] Err.EOF (by decide) rfl
    (by simp) (by simp) (by decide)

/-! ## C4: what `ReadSocksAddr` does on malformed input -/

/-- A read into `buf[lo:lo+k]` from a stream with fewer than `k` bytes left:
they are all stored, and the read fails. -/
theorem readInto_short (acc pad data : List Byte) (fin : Err) (k : Nat)
    (hk : data.length < k) (hpad : k ≤ pad.length) :
    readInto ⟨data, fin⟩ (acc ++ pad) acc.length (acc.length + k) =
      some (acc ++ data ++ pad.drop data.length, data.length,
        some (if fin = Err.EOF ∧ data ≠ [] then Err.ErrUnexpectedEOF else fin),
        ⟨[], fin⟩) := by
  unfold readInto
  have h1 : acc.length ≤ acc.length + k ∧ acc.length + k ≤ (acc ++ pad).length := by
    rw [List.length_append]; omega
  have h2 : ¬ (acc.length + k - acc.length ≤ data.length) := by omega
  rw [if_pos h1]
  unfold ReadFull
  simp only [if_neg h2, put_append]

/-- The port read of `ReadSocksAddr` when the stream ends inside the port: the
error of `io.ReadFull` is dropped and the bytes read so far are returned. -/
theorem readPort_short (acc pad port : List Byte) (fin : Err) (n nn : Nat)
    (hn : n + nn = acc.length) (hp : port.length < 2) (hpad : 2 ≤ pad.length) :
    readPort (acc ++ pad) n nn none ⟨port, fin⟩ = (Outcome.ok (acc ++ port), ⟨[], fin⟩) := by
  unfold readPort
  simp only [hn, readInto_short acc pad port fin 2 hp hpad]
  have h3 : acc.length + port.length = (acc ++ port).length := by simp
  have h4 : (acc ++ port).length ≤ (acc ++ port ++ List.drop port.length pad).length := by
    simp
  rw [if_pos (by rw [h3]; exact h4), h3, List.take_left]

/-- The part of C4 that holds, tag byte: an empty stream gives the stream's
error, and a tag other than 1, 3 and 4 gives the socks-address error. -/
theorem ReadSocksAddr_rejects_tag (t : Byte) (rest : List Byte) (fin : Err)
    (ht : t.val ≠ atypIPv4 ∧ t.val ≠ atypDomainName ∧ t.val ≠ atypIPv6) :
    ReadSocksAddr ⟨[], fin⟩ = (Outcome.error fin, ⟨[], fin⟩) ∧
      ReadSocksAddr ⟨t :: rest, fin⟩ = (Outcome.error Err.errorSocksAddress, ⟨rest, fin⟩) := by
  constructor
  · unfold ReadSocksAddr
    dsimp only
    have hpad : 1 ≤ (make maxAddrLen).length := by rw [make_length]; decide
    have e := readInto_short [] (make maxAddrLen) [] fin 1 (by decide) hpad
    simp only [List.length_nil, List.nil_append, Nat.zero_add, ne_eq, not_true_eq_false,
      and_false, if_false] at e
    rw [e]
  · unfold ReadSocksAddr
    dsimp only
    rw [readInto_tag]
    dsimp only
    have hget : ([t] ++ List.drop 1 (make maxAddrLen)).getD 0 0 = t := rfl
    rw [hget, if_neg ht.2.1, if_neg ht.1, if_neg ht.2.2]
    rfl

/-- The part of C4 that holds, fixed-size host: a stream that ends inside the
4 or 16 host bytes gives an error. -/
theorem ReadSocksAddr_rejects_short_ip (t : Byte) (k : Nat) (ip : List Byte) (fin : Err)
    (ht : (t.val = atypIPv4 ∧ k = 4) ∨ (t.val = atypIPv6 ∧ k = 16))
    (hip : ip.length < k) :
    ReadSocksAddr ⟨t :: ip, fin⟩ =
      (Outcome.error (if fin = Err.EOF ∧ ip ≠ [] then Err.ErrUnexpectedEOF else fin),
        ⟨[], fin⟩) := by
  unfold ReadSocksAddr
  dsimp only
  rw [readInto_tag]
  dsimp only
  have hk : k ≤ 16 := by omega
  have hpad : k ≤ ((make maxAddrLen).drop 1).length := by
    rw [List.length_drop, make_length]; simp [maxAddrLen]; omega
  have e := readInto_short [t] ((make maxAddrLen).drop 1) ip fin k hip hpad
  simp only [List.length_singleton] at e
  have hget : ([t] ++ List.drop 1 (make maxAddrLen)).getD 0 0 = t := rfl
  rw [hget]
  rcases ht with ⟨ht, rfl⟩ | ⟨ht, rfl⟩
  · rw [ht, if_neg (by decide), if_pos rfl, e]
    rfl
  · rw [ht, if_neg (by decide), if_neg (by decide), if_pos rfl, e]
    rfl

/-- The part of C4 that holds, domain name: a stream that ends before the
length byte, or inside the host the length byte announces, gives an error. -/
theorem ReadSocksAddr_rejects_short_domain (t l : Byte) (host : List Byte) (fin : Err)
    (ht : t.val = atypDomainName) (hl : host.length < l.val) :
    ReadSocksAddr ⟨[t], fin⟩ = (Outcome.error fin, ⟨[], fin⟩) ∧
      ReadSocksAddr ⟨t :: l :: host, fin⟩ =
        (Outcome.error (if fin = Err.EOF ∧ host ≠ [] then Err.ErrUnexpectedEOF else fin),
          ⟨[], fin⟩) := by
  have hget : ([t] ++ List.drop 1 (make maxAddrLen)).getD 0 0 = t := rfl
  constructor
  · unfold ReadSocksAddr
    dsimp only
    rw [readInto_tag]
    dsimp only
    have hpad : 1 ≤ ((make maxAddrLen).drop 1).length := by
      rw [List.length_drop, make_length]; decide
    have e := readInto_short [t] ((make maxAddrLen).drop 1) [] fin 1 (by decide) hpad
    simp only [List.length_singleton, ne_eq, not_true_eq_false, and_false, if_false,
      Nat.reduceAdd] at e
    rw [hget, ht, if_pos rfl, e]
  · unfold ReadSocksAddr
    dsimp only
    rw [readInto_tag]
    dsimp only
    rw [hget, ht, if_pos rfl]
    have hlen1 : ([l] : List Byte).length ≤ ((make maxAddrLen).drop 1).length := by
      rw [List.length_drop, make_length]; simp [maxAddrLen]
    have e1 := readInto_append [t] ((make maxAddrLen).drop 1) [l] host fin hlen1
    simp only [List.length_singleton, List.drop_drop, Nat.reduceAdd] at e1
    have e1a : readInto ⟨l :: host, fin⟩ ([t] ++ List.drop 1 (make maxAddrLen)) 1 2 =
        some ([t, l] ++ List.drop 2 (make maxAddrLen), 1, none, ⟨host, fin⟩) := e1
    rw [e1a]
    dsimp only
    have hget1 : ([t, l] ++ List.drop 2 (make maxAddrLen)).getD 1 0 = l := rfl
    have hpad : l.val ≤ ((make maxAddrLen).drop 2).length := by
      rw [List.length_drop, make_length]; simp [maxAddrLen]; have := l.isLt; omega
    have e := readInto_short [t, l] ((make maxAddrLen).drop 2) host fin l.val hl hpad
    simp only [List.length_cons, List.length_nil, Nat.reduceAdd] at e
    rw [hget1, e]
    rfl

/-- C4 (fails on the code): on a stream that holds the tag and the whole host
of an IPv4 or IPv6 address and then ends before the second port byte,
`ReadSocksAddr` returns no error: it returns the bytes it has read, with a nil
error, because the error of the port read is never inspected. -/
theorem ReadSocksAddr_short_port (t : Byte) (k : Nat) (ip port : List Byte) (fin : Err)
    (ht : (t.val = atypIPv4 ∧ k = 4) ∨ (t.val = atypIPv6 ∧ k = 16))
    (hip : ip.length = k) (hp : port.length < 2) :
    ReadSocksAddr ⟨t :: (ip ++ port), fin⟩ =
      (Outcome.ok (t :: (ip ++ port)), ⟨[], fin⟩) := by
  unfold ReadSocksAddr
  dsimp only
  rw [readInto_tag]
  dsimp only
  have hk : k ≤ 16 := by omega
  have hlen : ip.length ≤ ((make maxAddrLen).drop 1).length := by
    rw [hip, List.length_drop, make_length]; simp [maxAddrLen]; omega
  have e := readInto_append [t] ((make maxAddrLen).drop 1) ip port fin hlen
  simp only [List.length_singleton, List.drop_drop, hip] at e
  have hpad : 2 ≤ ((make maxAddrLen).drop (1 + k)).length := by
    rw [List.length_drop, make_length]; simp [maxAddrLen]; omega
  have hport := readPort_short ([t] ++ ip) ((make maxAddrLen).drop (1 + k)) port fin 1 k
    (by simp [hip]; omega) hp hpad
  have hget : ([t] ++ List.drop 1 (make maxAddrLen)).getD 0 0 = t := rfl
  rw [hget]
  rcases ht with ⟨ht, rfl⟩ | ⟨ht, rfl⟩
  · rw [ht, if_neg (by decide), if_pos rfl, e]
    dsimp only
    rw [hport]; rfl
  · rw [ht, if_neg (by decide), if_neg (by decide), if_pos rfl, e]
    dsimp only
    rw [hport]; rfl

/-- Witness for C4: the stream `01 0a 00 00 01 00` (IPv4 10.0.0.1 and one of
the two port bytes) is returned as an address, without error. -/
theorem ReadSocksAddr_short_port_witness :
    ReadSocksAddr ⟨1 :: ([10, 0, 0, 1] ++ [0]), Err.EOF⟩ =
      (Outcome.ok (1 :: ([10, 0, 0, 1] ++ [0])), ⟨[], Err.EOF⟩) :=
  ReadSocksAddr_short_port 1 4 [10, 0, 0, 1] [0] Err.EOF (Or.inl ⟨rfl, rfl⟩) rfl (by decide)

/-! ## Framing: `defaultConn.Write` and `defaultConn.Read` -/

theorem byte_shiftRight (n : Nat) : byte (n >>> 8) = byte (n / 256) := by
  rw [Nat.shiftRight_eq_div_pow]

theorem byte_and (n : Nat) : byte (n &&& 0x000000ff) = byte (n % 256) := by
  have h := Nat.and_pow_two_sub_one_eq_mod n 8
  have h2 : (2 : Nat) ^ 8 - 1 = 0x000000ff := by decide
  have h3 : (2 : Nat) ^ 8 = 256 := by decide
  rw [h2, h3] at h
  rw [h]

/-- The length a frame header announces is decoded as `Read` computes it. -/
theorem header_decode (hi lo : Byte) : (hi.val <<< 8) ||| lo.val = hi.val * 256 + lo.val := by
  have h := Nat.mul_add_lt_is_or (i := 8) (b := lo.val) (by have := lo.isLt; omega) hi.val
  rw [Nat.shiftLeft_eq, Nat.mul_comm hi.val (2 ^ 8), ← h]

theorem header_roundtrip (n : Nat) (h : n < 65536) :
    ((byte (n / 256)).val <<< 8) ||| (byte (n % 256)).val = n := by
  rw [header_decode, byte_val_of_lt _ (by omega), byte_val_of_lt _ (by omega)]
  omega

theorem NetConn.stream_write_succeeds (c : NetConn) (b : List Byte) (k : Nat)
    (h : c.nextWritesSucceed (k + 1)) :
    ∃ c', c.Write b = ((b.length, none), c') ∧ c'.wr = c.wr ++ b ∧ c'.rd = c.rd ∧
      c'.nextWritesSucceed k := by
  unfold NetConn.Write
  unfold NetConn.nextWritesSucceed at h
  match hw : c.wfault with
  | [] =>
    refine ⟨_, rfl, rfl, rfl, ?_⟩
    intro f hf
    simp [NetConn.nextWritesSucceed, hw] at hf
  | none :: fs =>
    refine ⟨_, rfl, rfl, rfl, ?_⟩
    intro f hf
    apply h
    rw [hw, List.take_succ_cons]
    exact List.mem_cons_of_mem _ hf
  | some e :: fs =>
    have := h (some e) (by rw [hw, List.take_succ_cons]; exact List.mem_cons_self _ _)
    cases this

/-- What an accepted `Write` does when the two writes on the stream succeed. -/
theorem Write_ok (c : defaultConn) (b : List Byte) (k : Nat)
    (hb : b.length + 2 ≤ MaxPacketSize) (hw : c.Conn.nextWritesSucceed (k + 2)) :
    ∃ c', c.Write b = ((b.length, none), c') ∧ c'.Conn.wr = c.Conn.wr ++ frame b ∧
      c'.Conn.rd = c.Conn.rd ∧ c'.isClient = c.isClient ∧ c'.Conn.nextWritesSucceed k := by
  obtain ⟨c1, e1, w1, r1, n1⟩ := NetConn.stream_write_succeeds c.Conn
    [byte (b.length >>> 8), byte (b.length &&& 0x000000ff)] (k + 1) hw
  obtain ⟨c2, e2, w2, r2, n2⟩ := NetConn.stream_write_succeeds c1 b k n1
  refine ⟨{ c with Conn := c2 }, ?_, ?_, ?_, rfl, n2⟩
  · unfold defaultConn.Write
    simp only [if_neg (Nat.not_lt.mpr hb), e1, e2]
  · show c2.wr = _
    rw [w2, w1, frame, byte_shiftRight, byte_and, List.append_assoc]
  · show c2.rd = _
    rw [r2, r1]

/-- A `Write` stopped by the size test returns `(0, error)` and leaves the
connection as it was. -/
theorem Write_too_large (c : defaultConn) (b : List Byte) (hb : MaxPacketSize < b.length + 2) :
    c.Write b = ((0, some Err.overMaxPacketSize), c) := by
  unfold defaultConn.Write
  simp only [gt_iff_lt, if_pos hb]

/-- An accepted `Write` returns an error only if the stream returned it. -/
theorem Write_error_from_stream (c : defaultConn) (b : List Byte) (e : Err)
    (hb : b.length + 2 ≤ MaxPacketSize) (he : (c.Write b).1.2 = some e) :
    some e ∈ c.Conn.wfault := by
  unfold defaultConn.Write NetConn.Write at he
  simp only [gt_iff_lt, if_neg (Nat.not_lt.mpr hb)] at he
  match hw : c.Conn.wfault with
  | [] => simp [hw] at he
  | some e1 :: fs =>
    simp only [hw] at he
    cases he
    exact List.mem_cons_self _ _
  | none :: [] => simp [hw] at he
  | none :: none :: fs => simp [hw] at he
  | none :: some e2 :: fs =>
    simp only [hw] at he
    cases he
    exact List.mem_cons_of_mem _ (List.mem_cons_self _ _)

/-! ## C3: frame size limit -/

/-- C3 as stated fails: it is not true that `Write` is rejected with the
packet-too-large error exactly when the payload is longer than 65507 bytes; a
payload of 65506 bytes is rejected. -/
theorem Write_limit_not_65507 :
    ¬ (∀ (c : defaultConn) (b : List Byte),
        (c.Write b).1.2 = some Err.overMaxPacketSize ↔ b.length > 65507) := by
  intro h
  have h1 := (h ⟨⟨⟨[], Err.EOF⟩, [], []⟩, true⟩ (List.replicate 65506 0)).mp
    (by rw [Write_too_large _ _ (by rw [List.length_replicate]; decide)])
  rw [List.length_replicate] at h1
  omega

/-- C3 (amended): on a connection whose stream does not itself return the
packet-too-large error value, `Write` is rejected with that error if and only
if `len(b) + 2 > MaxPacketSize = 65507`, that is `len(b) > 65505`; and a
rejected write returns 0 and leaves the connection, so also the bytes written
to the stream, unchanged. -/
theorem Write_size_limit (c : defaultConn) (b : List Byte)
    (hstream : some Err.overMaxPacketSize ∉ c.Conn.wfault) :
    MaxPacketSize = 65507 ∧
    ((c.Write b).1.2 = some Err.overMaxPacketSize ↔ b.length > 65505) ∧
    (b.length > 65505 → c.Write b = ((0, some Err.overMaxPacketSize), c)) := by
  have hmax : MaxPacketSize = 65507 := by decide
  refine ⟨hmax, ⟨?_, ?_⟩, ?_⟩
  · intro he
    by_contra hlen
    exact hstream (Write_error_from_stream c b _ (by rw [hmax]; omega) he)
  · intro hlen
    rw [Write_too_large c b (by rw [hmax]; omega)]
  · intro hlen
    exact Write_too_large c b (by rw [hmax]; omega)

/-- Witness for C3: a 65506-byte payload on a fresh connection. -/
theorem Write_size_limit_witness :
    MaxPacketSize = 65507 ∧
    ((defaultConn.Write ⟨⟨⟨[], Err.EOF⟩, [], []⟩, true⟩ (List.replicate 65506 0)).1.2 =
        some Err.overMaxPacketSize ↔ (List.replicate 65506 (0 : Byte)).length > 65505) ∧
    ((List.replicate 65506 (0 : Byte)).length > 65505 →
      defaultConn.Write ⟨⟨⟨[], Err.EOF⟩, [], []⟩, true⟩ (List.replicate 65506 0) =
        ((0, some Err.overMaxPacketSize), ⟨⟨⟨[], Err.EOF⟩, [], []⟩, true⟩)) :=
  Write_size_limit ⟨⟨⟨[], Err.EOF⟩, [], []⟩, true⟩ (List.replicate 65506 0) (by simp)

/-! ## C10: frame wire format -/

/-- C10: for every payload `b` that `Write` accepts (`len(b) + 2` is at most
`MaxPacketSize`), when the two writes on the stream succeed, the bytes appended
to the stream are the two bytes `len(b) / 256`, `len(b) mod 256` followed by
`b`, and `Write` returns `len(b)` and no error. -/
theorem Write_wire_format (c : defaultConn) (b : List Byte)
    (hb : b.length + 2 ≤ MaxPacketSize) (hw : c.Conn.nextWritesSucceed 2) :
    ∃ hi lo : Byte, hi.val = b.length / 256 ∧ lo.val = b.length % 256 ∧
      (c.Write b).2.Conn.wr = c.Conn.wr ++ [hi, lo] ++ b ∧
      (c.Write b).1 = (b.length, none) := by
  obtain ⟨c', e, w, _, _, _⟩ := Write_ok c b 0 hb hw
  have hmax : MaxPacketSize = 65507 := by decide
  refine ⟨byte (b.length / 256), byte (b.length % 256),
    byte_val_of_lt _ (by omega), byte_val_of_lt _ (by omega), ?_, ?_⟩
  · rw [e]
    show c'.Conn.wr = _
    rw [w, frame, List.append_assoc]
  · rw [e]

/-- Witness for C10: the payload `70 6f 6e 67` on a fresh connection. -/
theorem Write_wire_format_witness :
    ∃ hi lo : Byte, hi.val = ([112, 111, 110, 103] : List Byte).length / 256 ∧
      lo.val = ([112, 111, 110, 103] : List Byte).length % 256 ∧
      (defaultConn.Write ⟨⟨⟨[], Err.EOF⟩, [], []⟩, true⟩ [112, 111, 110, 103]).2.Conn.wr =
        [] ++ [hi, lo] ++ [112, 111, 110, 103] ∧
      (defaultConn.Write ⟨⟨⟨[], Err.EOF⟩, [], []⟩, true⟩ [112, 111, 110, 103]).1 =
        (([112, 111, 110, 103] : List Byte).length, none) :=
  Write_wire_format ⟨⟨⟨[], Err.EOF⟩, [], []⟩, true⟩ [112, 111, 110, 103] (by decide)
    (by intro f hf; simp at hf)

/-! ## C2: a frame longer than the destination buffer -/

theorem put_zero (b bs : List Byte) : put b 0 bs = bs ++ b.drop bs.length := by
  simp [put]

/-- What `Read` does on a stream that starts with a header `hi lo` announcing more bytes
than the buffer holds: the header is consumed and stored, the read fails with
`io.ErrShortBuffer`, and everything after the header stays on the stream. -/
theorem Read_short_buffer (c : defaultConn) (b : List Byte) (hi lo : Byte) (tail : List Byte)
    (h2 : 2 ≤ b.length) (hL : b.length < hi.val * 256 + lo.val)
    (hrd : c.Conn.rd.data = hi :: lo :: tail) :
    c.Read b = ((0, some Err.ErrShortBuffer), hi :: lo :: b.drop 2,
      { c with Conn := { c.Conn with rd := { c.Conn.rd with data := tail } } }) := by
  unfold defaultConn.Read
  have e : ReadFull c.Conn.rd 2 = ([hi, lo], none, { c.Conn.rd with data := tail }) := by
    unfold ReadFull
    rw [hrd]
    simp
  rw [if_neg (by omega), e]
  simp only [put_zero, List.length_cons, List.length_nil, List.cons_append, List.nil_append,
    List.getD_cons_zero, List.getD_cons_succ, header_decode]
  rw [if_pos (by simp only [List.length_cons, List.length_drop]; omega)]

/-- C2 as stated fails: it is not true that a `Read` into a buffer shorter than
the announced length leaves the stream just after the frame.  For the frame
`00 03 01 02 03` and a 2-byte buffer the three payload bytes are not consumed. -/
theorem Read_short_buffer_not_drained :
    ¬ (∀ (c : defaultConn) (b payload rest : List Byte),
        2 ≤ b.length → b.length < payload.length → payload.length < 65536 →
        c.Conn.rd.data = frame payload ++ rest →
        (c.Read b).1 = (0, some Err.ErrShortBuffer) ∧ (c.Read b).2.2.Conn.rd.data = rest) := by
  intro h
  have h1 := (h ⟨⟨⟨[0, 3, 1, 2, 3], Err.EOF⟩, [], []⟩, false⟩ [0, 0] [1, 2, 3] []
    (by decide) (by decide) (by decide) (by decide)).2
  rw [Read_short_buffer _ [0, 0] 0 3 [1, 2, 3] (by decide) (by decide) rfl] at h1
  cases h1

/-- C2 (amended): for every frame that announces a length `L` and every
destination buffer `b` with `2 <= len(b) < L`, `Read` reports the short-buffer
failure and has consumed exactly the 2-byte header: the `L` payload bytes, and
whatever follows them, are still on the stream. -/
theorem Read_short_buffer_keeps_payload (c : defaultConn) (b payload rest : List Byte)
    (h2 : 2 ≤ b.length) (hL : b.length < payload.length) (h16 : payload.length < 65536)
    (hrd : c.Conn.rd.data = frame payload ++ rest) :
    (c.Read b).1 = (0, some Err.ErrShortBuffer) ∧
      (c.Read b).2.2.Conn.rd.data = payload ++ rest := by
  have hrd2 : c.Conn.rd.data =
      byte (payload.length / 256) :: byte (payload.length % 256) :: (payload ++ rest) := by
    rw [hrd, frame]; rfl
  have hlen : b.length <
      (byte (payload.length / 256)).val * 256 + (byte (payload.length % 256)).val := by
    rw [byte_val_of_lt _ (by omega), byte_val_of_lt _ (by omega)]
    omega
  rw [Read_short_buffer c b _ _ _ h2 hlen hrd2]
  exact ⟨rfl, rfl⟩

/-- Witness for C2: the frame `00 03 01 02 03` followed by the frame `00 01 09`,
read into a 2-byte buffer. -/
theorem Read_short_buffer_keeps_payload_witness :
    (defaultConn.Read ⟨⟨⟨frame [1, 2, 3] ++ [0, 1, 9], Err.EOF⟩, [], []⟩, false⟩ [0, 0]).1 =
        (0, some Err.ErrShortBuffer) ∧
      (defaultConn.Read ⟨⟨⟨frame [1, 2, 3] ++ [0, 1, 9], Err.EOF⟩, [], []⟩, false⟩
        [0, 0]).2.2.Conn.rd.data = [1, 2, 3] ++ [0, 1, 9] :=
  Read_short_buffer_keeps_payload ⟨⟨⟨frame [1, 2, 3] ++ [0, 1, 9], Err.EOF⟩, [], []⟩, false⟩
    [0, 0] [1, 2, 3] [0, 1, 9] (by decide) (by decide) (by decide) rfl

/-! ## C9: frame round trip -/

/-- What `Read` does on a stream that starts with the frame of `p`, into a buffer that
can hold `p`: it returns `len(p)`, the buffer starts with `p` and keeps its
length, and exactly the frame is consumed. -/
theorem Read_frame (c : defaultConn) (b p rest : List Byte)
    (hp : p.length < 65536) (h2 : 2 ≤ b.length) (hb : p.length ≤ b.length)
    (hrd : c.Conn.rd.data = frame p ++ rest) :
    ∃ b' c', c.Read b = ((p.length, none), b', c') ∧ b'.length = b.length ∧
      b'.take p.length = p ∧ c'.Conn.rd.data = rest ∧
      c.Conn.rd.data.length - c'.Conn.rd.data.length = 2 + p.length := by
  have e : ReadFull c.Conn.rd 2 = ([byte (p.length / 256), byte (p.length % 256)], none,
      { c.Conn.rd with data := p ++ rest }) := by
    unfold ReadFull
    rw [hrd, frame]
    simp
  have e2 : ReadFull { c.Conn.rd with data := p ++ rest } p.length =
      (p, none, { c.Conn.rd with data := rest }) := ReadFull_append p rest _
  have hlen : (p ++ List.drop p.length
      (byte (p.length / 256) :: byte (p.length % 256) :: List.drop 2 b)).length = b.length := by
    simp only [List.length_append, List.length_drop, List.length_cons]
    omega
  refine ⟨p ++ List.drop p.length
      (byte (p.length / 256) :: byte (p.length % 256) :: List.drop 2 b),
    { c with Conn := { c.Conn with rd := { c.Conn.rd with data := rest } } }, ?_, hlen,
    List.take_left _ _, rfl, ?_⟩
  · unfold defaultConn.Read
    rw [if_neg (by omega), e]
    simp only [put_zero, List.length_cons, List.length_nil, List.cons_append, List.nil_append,
      List.getD_cons_zero, List.getD_cons_succ, header_roundtrip p.length hp]
    rw [if_neg (by simp only [List.length_cons, List.length_drop]; omega), e2]
  · show c.Conn.rd.data.length - rest.length = _
    rw [hrd, frame]
    simp only [List.length_append, List.length_cons, List.length_nil]
    omega

theorem writeAll_frames (ps : List (List Byte)) :
    ∀ (c : defaultConn), (∀ p ∈ ps, p.length + 2 ≤ MaxPacketSize) →
      c.Conn.nextWritesSucceed (2 * ps.length) →
      (writeAll c ps).1 = ps.map (fun p => (p.length, none)) ∧
        (writeAll c ps).2.Conn.wr = c.Conn.wr ++ frames ps := by
  induction ps with
  | nil => intro c _ _; simp [writeAll, frames]
  | cons p ps ih =>
    intro c hacc hw
    have hw2 : c.Conn.nextWritesSucceed (2 * ps.length + 2) := by
      have : 2 * (p :: ps).length = 2 * ps.length + 2 := by
        rw [List.length_cons]; omega
      rw [← this]; exact hw
    obtain ⟨c', e, w, _, _, n⟩ := Write_ok c p (2 * ps.length)
      (hacc p (List.mem_cons_self _ _)) hw2
    obtain ⟨ih1, ih2⟩ := ih c' (fun q hq => hacc q (List.mem_cons_of_mem _ hq)) n
    simp only [writeAll, e, List.map_cons, frames]
    rw [ih1, ih2, w, List.append_assoc]
    exact ⟨rfl, rfl⟩

theorem readAll_frames (ps : List (List Byte)) :
    ∀ (c : defaultConn) (b rest : List Byte), (∀ p ∈ ps, p.length + 2 ≤ MaxPacketSize) →
      b.length = MaxPacketSize → c.Conn.rd.data = frames ps ++ rest →
      (readAll c b ps.length).1 = ps.map (fun p => ((p.length, none), p, 2 + p.length)) ∧
        (readAll c b ps.length).2.Conn.rd.data = rest := by
  have hmax : MaxPacketSize = 65507 := by decide
  induction ps with
  | nil => intro c b rest _ _ hrd; simpa [readAll, frames] using hrd
  | cons p ps ih =>
    intro c b rest hacc hb hrd
    have hp := hacc p (List.mem_cons_self _ _)
    rw [frames, List.append_assoc] at hrd
    obtain ⟨b', c', e, hb', htake, hrd', hcons⟩ := Read_frame c b p (frames ps ++ rest)
      (by omega) (by omega) (by omega) hrd
    obtain ⟨ih1, ih2⟩ := ih c' b' rest (fun q hq => hacc q (List.mem_cons_of_mem _ hq))
      (by rw [hb', hb]) hrd'
    simp only [List.length_cons, readAll, e, List.map_cons]
    rw [ih1, ih2, htake, hcons]
    exact ⟨rfl, rfl⟩

/-- C9: for every sequence of payloads that `Write` accepts, written in order
to a stream whose writes succeed, as many successive `Read` calls on a
connection that receives those bytes, with a destination buffer of
`MaxPacketSize` bytes, return the lengths of the payloads and no error, with
the buffer prefix equal to each payload in order, each call taking exactly one
frame (`2 + len(p)` bytes) from the stream; what follows the frames stays. -/
theorem Read_Write_roundtrip (ps : List (List Byte)) (cw cr : defaultConn)
    (b rest : List Byte)
    (hacc : ∀ p ∈ ps, p.length + 2 ≤ MaxPacketSize)
    (hw : cw.Conn.nextWritesSucceed (2 * ps.length))
    (hb : b.length = MaxPacketSize)
    (hpipe : cr.Conn.rd.data =
      (writeAll cw ps).2.Conn.wr.drop cw.Conn.wr.length ++ rest) :
    (writeAll cw ps).1 = ps.map (fun p => (p.length, none)) ∧
    (readAll cr b ps.length).1 = ps.map (fun p => ((p.length, none), p, 2 + p.length)) ∧
    (readAll cr b ps.length).2.Conn.rd.data = rest := by
  obtain ⟨w1, w2⟩ := writeAll_frames ps cw hacc hw
  rw [w2, List.drop_left] at hpipe
  exact ⟨w1, readAll_frames ps cr b rest hacc hb hpipe⟩

/-- Witness for C9: the payloads `70 69 6e 67`, the empty payload and `21`. -/
theorem Read_Write_roundtrip_witness :
    (writeAll ⟨⟨⟨[], Err.EOF⟩, [], []⟩, true⟩ [[112, 105, 110, 103], [], [33]]).1 =
      [[112, 105, 110, 103], [], [33]].map (fun p => (p.length, none)) ∧
    (readAll ⟨⟨⟨[0, 4, 112, 105, 110, 103, 0, 0, 0, 1, 33, 7], Err.EOF⟩, [], []⟩, false⟩
        (make MaxPacketSize) ([[112, 105, 110, 103], [], [33]] : List (List Byte)).length).1 =
      [[112, 105, 110, 103], [], [33]].map (fun p => ((p.length, none), p, 2 + p.length)) ∧
    (readAll ⟨⟨⟨[0, 4, 112, 105, 110, 103, 0, 0, 0, 1, 33, 7], Err.EOF⟩, [], []⟩, false⟩
        (make MaxPacketSize)
        ([[112, 105, 110, 103], [], [33]] : List (List Byte)).length).2.Conn.rd.data = [7] :=
  Read_Write_roundtrip [[112, 105, 110, 103], [], [33]] ⟨⟨⟨[], Err.EOF⟩, [], []⟩, true⟩
    ⟨⟨⟨[0, 4, 112, 105, 110, 103, 0, 0, 0, 1, 33, 7], Err.EOF⟩, [], []⟩, false⟩
    (make MaxPacketSize) [7]
    (by decide) (by intro f hf; simp at hf) (make_length _) (by decide)

/-! ## C5: default queue capacity -/

/-- A positive `BufSize` is the queue capacity. -/
theorem bufSize_of_pos (c : Client) (h : 0 < c.BufSize) : c.bufSize = c.BufSize := by
  unfold Client.bufSize
  rw [if_pos h]

/-- C5 (fails on the code): for every `Client` whose `BufSize` is not positive,
`bufSize()` is `packetBufSize` = 2048, not the 8 that the comment on the field
`BufSize` documents as the default. -/
theorem bufSize_of_unset (c : Client) (h : c.BufSize ≤ 0) :
    c.bufSize = 2048 ∧ c.bufSize ≠ 8 := by
  unfold Client.bufSize
  rw [if_neg (by omega)]
  decide

/-- Witness for C5: the zero value of `BufSize`. -/
theorem bufSize_of_unset_witness :
    Client.bufSize ⟨0⟩ = 2048 ∧ Client.bufSize ⟨0⟩ ≠ 8 :=
  bufSize_of_unset ⟨0⟩ (by decide)

/-! ## C6 and C7: handshake -/

/-- C6 (fails on the code): on the client side `Handshake(T)` returns `T` and
no error and leaves the connection untouched, so it writes no byte; after one
accepted `Write` of a payload `P` the stream holds only the frame of `P`, which
differs from any non-empty encoded address followed by that frame. -/
theorem Handshake_client_writes_nothing
    (ResolveUDPAddr : String → String → Option NetAddr × Option Err)
    (conn : NetConn) (T : NetAddr) (P : List Byte)
    (hP : P.length + 2 ≤ MaxPacketSize) (hw : conn.nextWritesSucceed 2) :
    (DefaultOutConn conn).Handshake ResolveUDPAddr (some T) =
        ((some T, none), DefaultOutConn conn) ∧
      (((DefaultOutConn conn).Handshake ResolveUDPAddr (some T)).2.Write P).2.Conn.wr =
        conn.wr ++ frame P ∧
      ∀ enc : List Byte, enc ≠ [] →
        (((DefaultOutConn conn).Handshake ResolveUDPAddr (some T)).2.Write P).2.Conn.wr ≠
          conn.wr ++ enc ++ frame P := by
  have h1 : (DefaultOutConn conn).Handshake ResolveUDPAddr (some T) =
      ((some T, none), DefaultOutConn conn) := rfl
  obtain ⟨c', e, w, _, _, _⟩ := Write_ok (DefaultOutConn conn) P 0 hP hw
  have h2 : (((DefaultOutConn conn).Handshake ResolveUDPAddr (some T)).2.Write P).2.Conn.wr =
      conn.wr ++ frame P := by
    rw [h1, e]; exact w
  refine ⟨h1, h2, ?_⟩
  intro enc henc heq
  rw [h2, List.append_assoc] at heq
  have h3 := List.append_cancel_left heq
  have h4 := congrArg List.length h3
  rw [List.length_append] at h4
  have h5 : 0 < enc.length := List.length_pos.mpr henc
  omega

/-- Witness for C6: target 1.2.3.4:53 and the payload `70`, on a fresh
connection. -/
theorem Handshake_client_writes_nothing_witness :
    (DefaultOutConn ⟨⟨[], Err.EOF⟩, [], []⟩).Handshake (fun _ _ => (none, none))
        (some (NetAddr.targetAddr [1, 1, 2, 3, 4, 0, 53])) =
        ((some (NetAddr.targetAddr [1, 1, 2, 3, 4, 0, 53]), none),
          DefaultOutConn ⟨⟨[], Err.EOF⟩, [], []⟩) ∧
      (((DefaultOutConn ⟨⟨[], Err.EOF⟩, [], []⟩).Handshake (fun _ _ => (none, none))
        (some (NetAddr.targetAddr [1, 1, 2, 3, 4, 0, 53]))).2.Write [112]).2.Conn.wr =
        [] ++ frame [112] ∧
      ∀ enc : List Byte, enc ≠ [] →
        (((DefaultOutConn ⟨⟨[], Err.EOF⟩, [], []⟩).Handshake (fun _ _ => (none, none))
          (some (NetAddr.targetAddr [1, 1, 2, 3, 4, 0, 53]))).2.Write [112]).2.Conn.wr ≠
          [] ++ enc ++ frame [112] :=
  Handshake_client_writes_nothing (fun _ _ => (none, none)) ⟨⟨[], Err.EOF⟩, [], []⟩
    (NetAddr.targetAddr [1, 1, 2, 3, 4, 0, 53]) [112] (by decide)
    (by intro f hf; simp at hf)

/-- C7 (fails on the code): on the server side `Handshake(nil)` leaves the
connection untouched, so it consumes no byte of the stream, and what it returns
is the result of resolving the constant `109.200.208.201:443`, the same for
every stream: the address on the stream is not read, and a stream that does not
begin with a well-formed address gives the same result as one that does. -/
theorem Handshake_server_reads_nothing
    (ResolveUDPAddr : String → String → Option NetAddr × Option Err)
    (conn conn' : NetConn) :
    ((DefaultInConn conn).Handshake ResolveUDPAddr none).2 = DefaultInConn conn ∧
      ((DefaultInConn conn).Handshake ResolveUDPAddr none).1 =
        ResolveUDPAddr "udp" "109.200.208.201:443" ∧
      ((DefaultInConn conn).Handshake ResolveUDPAddr none).1 =
        ((DefaultInConn conn').Handshake ResolveUDPAddr none).1 :=
  ⟨rfl, rfl, rfl⟩

/-! ## C8: session removal -/

theorem nat_Get_Set (t : nat) (key : String) (buf : Chan) : (t.Set key buf).Get key = buf := by
  simp [nat.Get, nat.Set]

theorem nat_Get_Del (t : nat) (key : String) : (t.Del key).2.Get key = none := by
  unfold nat.Del
  cases h : t.m key with
  | none => simp [nat.Get, h]
  | some buf => simp [nat.Get]

/-- When the relay has run, the session goroutine removes the session: the
next packet of the same peer creates a new channel and starts a new goroutine. -/
theorem sessionWorker_after_relay (t : nat) (key : String) (relayErr : Option Err)
    (fresh : Nat) :
    ((Client.sessionWorker none none relayErr key t).1).Get key = none ∧
      (Client.serveSession (Client.sessionWorker none none relayErr key t).1 key fresh).2 =
        (some fresh, true) := by
  have h : (Client.sessionWorker none none relayErr key t).1 = (t.Del key).2 := by
    unfold Client.sessionWorker
    cases relayErr <;> rfl
  rw [h]
  refine ⟨nat_Get_Del t key, ?_⟩
  unfold Client.serveSession
  rw [nat_Get_Del]

/-- C8 (fails on the code): when the session goroutine ends because the dial
fails, or because the handshake fails, the session table still holds the
session's channel under its key, so the next packet from the same peer finds
that session and neither creates a queue nor starts a goroutine. -/
theorem sessionWorker_keeps_session (t : nat) (key : String) (pbuf fresh : Nat)
    (dialErr handshakeErr relayErr : Option Err)
    (hfail : dialErr ≠ none ∨ handshakeErr ≠ none) :
    ((Client.sessionWorker dialErr handshakeErr relayErr key
        (t.Set key (some pbuf))).1).Get key = some pbuf ∧
      (Client.serveSession (Client.sessionWorker dialErr handshakeErr relayErr key
        (t.Set key (some pbuf))).1 key fresh).2 = (some pbuf, false) := by
  have h : (Client.sessionWorker dialErr handshakeErr relayErr key (t.Set key (some pbuf))).1 =
      t.Set key (some pbuf) := by
    unfold Client.sessionWorker
    cases dialErr with
    | some e => rfl
    | none =>
      cases handshakeErr with
      | some e => rfl
      | none => simp at hfail
  rw [h]
  refine ⟨nat_Get_Set t key _, ?_⟩
  unfold Client.serveSession
  rw [nat_Get_Set]

/-- Witness for C8: a dial that fails, for the first peer of an empty table. -/
theorem sessionWorker_keeps_session_witness :
    ((Client.sessionWorker (some (Err.other 111)) none none "10.0.0.2:5000"
        ((nat.mk (fun _ => none)).Set "10.0.0.2:5000" (some 0))).1).Get "10.0.0.2:5000" =
        some 0 ∧
      (Client.serveSession (Client.sessionWorker (some (Err.other 111)) none none
        "10.0.0.2:5000" ((nat.mk (fun _ => none)).Set "10.0.0.2:5000" (some 0))).1
        "10.0.0.2:5000" 1).2 = (some 0, false) :=
  sessionWorker_keeps_session (nat.mk (fun _ => none)) "10.0.0.2:5000" 0 1
    (some (Err.other 111)) none none (Or.inl (by simp))

/-! ## C11: host names longer than 255 bytes -/

/-- C11: for an endpoint string whose host is not an IP literal, when the host
is longer than 255 bytes `ParseSocksAddr` returns nil, so no encoded bytes, and
`resloveSocksAddr` turns that into the invalid-address error; when the host has
at most 255 bytes and the port is valid, `ParseSocksAddr` returns the encoded
address and `resloveSocksAddr` returns it without error. -/
theorem ParseSocksAddr_host_limit (lib : NetLib) (addrString : NetAddr → List Byte)
    (network s host port : List Byte)
    (hs : lib.SplitHostPort s = some (host, port)) (hip : lib.ParseIP host = none)
    (hstr : addrString (NetAddr.other network s) = s) :
    (255 < host.length →
      ParseSocksAddr lib s = none ∧
      resloveSocksAddr lib addrString (NetAddr.other network s) =
        (none, some Err.invalidAddress)) ∧
    (host.length ≤ 255 → ∀ portnum, lib.ParseUint port = some portnum →
      ParseSocksAddr lib s = some ([byte atypDomainName, byte host.length] ++ host ++
        [byte (portnum >>> 8), byte portnum]) ∧
      resloveSocksAddr lib addrString (NetAddr.other network s) =
        (some ([byte atypDomainName, byte host.length] ++ host ++
          [byte (portnum >>> 8), byte portnum]), none)) := by
  constructor
  · intro hlen
    have h1 : ParseSocksAddr lib s = none := by
      unfold ParseSocksAddr
      simp only [hs, hip, gt_iff_lt, if_pos hlen]
    refine ⟨h1, ?_⟩
    unfold resloveSocksAddr
    simp only [hstr, h1]
  · intro hlen portnum hport
    have h1 := ParseSocksAddr_domain lib s host port portnum hs hip hlen hport
    refine ⟨h1, ?_⟩
    unfold resloveSocksAddr
    simp only [hstr, h1]

set_option maxRecDepth 100000 in
/-- Witness for C11: the endpoint made of 256 letters `a`, a colon and `80`. -/
theorem ParseSocksAddr_host_limit_witness :
    (255 < (List.replicate 256 (97 : Byte)).length →
      ParseSocksAddr sampleLib (List.replicate 256 97 ++ [58, 56, 48]) = none ∧
      resloveSocksAddr sampleLib (fun _ => (List.replicate 256 97 ++ [58, 56, 48] : List Byte))
          (NetAddr.other [117, 100, 112] (List.replicate 256 97 ++ [58, 56, 48])) =
        (none, some Err.invalidAddress)) ∧
    ((List.replicate 256 (97 : Byte)).length ≤ 255 → ∀ portnum,
      sampleLib.ParseUint [56, 48] = some portnum →
      ParseSocksAddr sampleLib (List.replicate 256 97 ++ [58, 56, 48]) =
        some ([byte atypDomainName, byte (List.replicate 256 (97 : Byte)).length] ++
          List.replicate 256 (97 : Byte) ++ [byte (portnum >>> 8), byte portnum]) ∧
      resloveSocksAddr sampleLib (fun _ => (List.replicate 256 97 ++ [58, 56, 48] : List Byte))
          (NetAddr.other [117, 100, 112] (List.replicate 256 97 ++ [58, 56, 48])) =
        (some ([byte atypDomainName, byte (List.replicate 256 (97 : Byte)).length] ++
          List.replicate 256 (97 : Byte) ++ [byte (portnum >>> 8), byte portnum]), none)) :=
  ParseSocksAddr_host_limit sampleLib (fun _ => (List.replicate 256 97 ++ [58, 56, 48] : List Byte))
    [117, 100, 112] (List.replicate 256 97 ++ [58, 56, 48]) (List.replicate 256 97) [56, 48]
    (by decide) rfl rfl

/-! ## C12: encoded layout -/

theorem slice_mid (pre mid post : List Byte) :
    slice (pre ++ mid ++ post) pre.length (pre.length + mid.length) = some mid := by
  unfold slice
  have h : pre.length ≤ pre.length + mid.length ∧
      pre.length + mid.length ≤ (pre ++ mid ++ post).length := by
    simp only [List.length_append]; omega
  rw [if_pos h]
  have h2 : pre.length + mid.length = (pre ++ mid).length := by simp
  rw [h2, List.take_left, List.drop_left]

/-- The port that `SocksAddr.String` computes from the last two bytes. -/
theorem port_bytes (p : Nat) (hp : p < 65536) :
    (byte (p >>> 8)).val = p / 256 ∧ (byte p).val = p % 256 ∧
      (((byte (p >>> 8)).val <<< 8) ||| (byte p).val) = p := by
  have h1 : (byte (p >>> 8)).val = p / 256 := by
    rw [byte_shiftRight, byte_val_of_lt _ (by omega)]
  have h2 : (byte p).val = p % 256 := rfl
  refine ⟨h1, h2, ?_⟩
  rw [header_decode, h1, h2]
  omega

/-- What `SocksAddr.String` returns for an address made of a tag, a host part
and two port bytes, once the host string is known. -/
theorem String_of_layout (lib : StrLib) (t : Byte) (body : List Byte) (hi lo : Byte)
    (host : List Byte)
    (hhost : (if t.val = atypDomainName then
        match (t :: (body ++ [hi, lo]))[1]? with
        | none => none
        | some l => slice (t :: (body ++ [hi, lo])) 2 (2 + l.val)
      else if t.val = atypIPv4 then
        (slice (t :: (body ++ [hi, lo])) 1 (1 + 4)).map lib.IPString
      else if t.val = atypIPv6 then
        (slice (t :: (body ++ [hi, lo])) 1 (1 + 16)).map lib.IPString
      else none) = some host) :
    SocksAddr.String lib (t :: (body ++ [hi, lo])) =
      some (lib.JoinHostPort host (lib.Itoa (hi.val * 256 + lo.val))) := by
  unfold SocksAddr.String
  simp only [hhost]
  have hlen : ¬ (t :: (body ++ [hi, lo])).length < 2 := by
    simp only [List.length_cons, List.length_append, List.length_nil]; omega
  rw [if_neg hlen]
  have hs := slice_mid (t :: body) [hi, lo] []
  simp only [List.append_nil, List.length_cons, List.length_nil, List.cons_append] at hs
  have hl2 : (t :: (body ++ [hi, lo])).length - 2 = body.length + 1 := by
    simp only [List.length_cons, List.length_append, List.length_nil]; omega
  have hl3 : (t :: (body ++ [hi, lo])).length = body.length + 1 + (0 + 1 + 1) := by
    simp only [List.length_cons, List.length_append, List.length_nil]
  rw [hl2]
  rw [hl3, hs]
  simp only [List.getD_cons_zero, List.getD_cons_succ, header_decode]

/-- C12: for an accepted endpoint with port `p`, `ParseSocksAddr` returns the
tag 1, the 4 host bytes and the port (7 bytes) for an IPv4 host, the tag 4, 16
host bytes (the address itself when `net.ParseIP` gave its 16-byte form) and
the port (19 bytes) for any other IP host, and the tag 3, the length byte, the
host and the port (4 + len(h) bytes) for a domain name; the port bytes are
`p / 256` and `p mod 256`, and `SocksAddr.String` joins the host with the port
`256*b0 + b1 = p` read from the last two bytes. -/
theorem ParseSocksAddr_layout (lib : NetLib) (slib : StrLib) (s host port : List Byte)
    (p : Nat) (hs : lib.SplitHostPort s = some (host, port))
    (hport : lib.ParseUint port = some p) (hp : p < 65536) :
    (byte (p >>> 8)).val = p / 256 ∧ (byte p).val = p % 256 ∧
    (∀ ip ip4, lib.ParseIP host = some ip → To4 ip = some ip4 →
      ParseSocksAddr lib s = some ((1 : Byte) :: (ip4 ++ [byte (p >>> 8), byte p])) ∧
      ip4.length = 4 ∧ ((1 : Byte) :: (ip4 ++ [byte (p >>> 8), byte p])).length = 7 ∧
      SocksAddr.String slib ((1 : Byte) :: (ip4 ++ [byte (p >>> 8), byte p])) =
        some (slib.JoinHostPort (slib.IPString ip4) (slib.Itoa p))) ∧
    (∀ ip, lib.ParseIP host = some ip → To4 ip = none →
      ∃ ip6 : List Byte, ip6.length = 16 ∧ (ip.length = 16 → ip6 = ip) ∧
        ParseSocksAddr lib s = some ((4 : Byte) :: (ip6 ++ [byte (p >>> 8), byte p])) ∧
        ((4 : Byte) :: (ip6 ++ [byte (p >>> 8), byte p])).length = 19 ∧
        SocksAddr.String slib ((4 : Byte) :: (ip6 ++ [byte (p >>> 8), byte p])) =
          some (slib.JoinHostPort (slib.IPString ip6) (slib.Itoa p))) ∧
    (lib.ParseIP host = none → host.length ≤ 255 →
      ParseSocksAddr lib s =
        some ((3 : Byte) :: byte host.length :: (host ++ [byte (p >>> 8), byte p])) ∧
      (byte host.length).val = host.length ∧
      ((3 : Byte) :: byte host.length :: (host ++ [byte (p >>> 8), byte p])).length =
        4 + host.length ∧
      SocksAddr.String slib
          ((3 : Byte) :: byte host.length :: (host ++ [byte (p >>> 8), byte p])) =
        some (slib.JoinHostPort host (slib.Itoa p))) := by
  obtain ⟨hhi, hlo, hpq⟩ := port_bytes p hp
  have hpq2 : (byte (p >>> 8)).val * 256 + (byte p).val = p := by
    rw [← header_decode]; exact hpq
  refine ⟨hhi, hlo, ?_, ?_, ?_⟩
  · intro ip ip4 hip h4
    have hl := To4_length ip ip4 h4
    refine ⟨ParseSocksAddr_ipv4 lib s host port ip ip4 p hs hip h4 hport, hl, ?_, ?_⟩
    · simp only [List.length_append, List.length_cons, List.length_nil, hl]
    · have hsl : slice ((1 : Byte) :: (ip4 ++ [byte (p >>> 8), byte p])) 1 (1 + 4) =
          some ip4 := by
        have := slice_mid [(1 : Byte)] ip4 [byte (p >>> 8), byte p]
        rw [hl] at this
        exact this
      have := String_of_layout slib 1 ip4 (byte (p >>> 8)) (byte p) (slib.IPString ip4)
        (by rw [if_neg (by decide), if_pos (by decide), hsl]; rfl)
      rw [hpq2] at this
      exact this
  · intro ip hip h4
    have hl : ((copy (make 18) ip).take 16).length = 16 := by
      rw [List.length_take, copy_length, make_length]; rfl
    refine ⟨(copy (make 18) ip).take 16, hl, ?_,
      ParseSocksAddr_ipv6 lib s host port ip p hs hip h4 hport, ?_, ?_⟩
    · intro h16
      rw [copy_of_le _ _ (by rw [make_length]; omega)]
      rw [List.take_append_of_le_length (by omega), List.take_of_length_le (by omega)]
    · simp only [List.length_append, List.length_cons, List.length_nil, hl]
    · have hsl : slice ((4 : Byte) :: ((copy (make 18) ip).take 16 ++
          [byte (p >>> 8), byte p])) 1 (1 + 16) = some ((copy (make 18) ip).take 16) := by
        have := slice_mid [(4 : Byte)] ((copy (make 18) ip).take 16) [byte (p >>> 8), byte p]
        rw [hl] at this
        exact this
      have := String_of_layout slib 4 ((copy (make 18) ip).take 16) (byte (p >>> 8)) (byte p)
        (slib.IPString ((copy (make 18) ip).take 16))
        (by rw [if_neg (by decide), if_neg (by decide), if_pos (by decide), hsl]; rfl)
      rw [hpq2] at this
      exact this
  · intro hip hlen
    have hb : (byte host.length).val = host.length := byte_val_of_lt _ (by omega)
    refine ⟨ParseSocksAddr_domain lib s host port p hs hip hlen hport, hb, ?_, ?_⟩
    · simp only [List.length_append, List.length_cons, List.length_nil]; omega
    · have hsl : slice ((3 : Byte) :: (byte host.length :: host ++
          [byte (p >>> 8), byte p])) 2 (2 + host.length) = some host :=
        slice_mid [(3 : Byte), byte host.length] host [byte (p >>> 8), byte p]
      have e1 : ((3 : Byte) :: (byte host.length :: host ++
          [byte (p >>> 8), byte p]))[1]? = some (byte host.length) := by
        simp
      have := String_of_layout slib 3 (byte host.length :: host) (byte (p >>> 8)) (byte p) host
        (by rw [if_pos (by decide), e1]; dsimp only; rw [hb, hsl])
      rw [hpq2] at this
      exact this

/-- Witness for C12: the endpoint `ab:80`, a domain name. -/
theorem ParseSocksAddr_layout_witness :
    ParseSocksAddr sampleLib [97, 98, 58, 56, 48] =
        some ((3 : Byte) :: byte ([97, 98] : List Byte).length ::
          (([97, 98] : List Byte) ++ [byte (80 >>> 8), byte 80])) ∧
      (byte ([97, 98] : List Byte).length).val = ([97, 98] : List Byte).length ∧
      ((3 : Byte) :: byte ([97, 98] : List Byte).length ::
          (([97, 98] : List Byte) ++ [byte (80 >>> 8), byte 80])).length =
        4 + ([97, 98] : List Byte).length ∧
      SocksAddr.String ⟨fun b => b, fun _ => [56, 48], fun h q => h ++ [58] ++ q⟩
          ((3 : Byte) :: byte ([97, 98] : List Byte).length ::
            (([97, 98] : List Byte) ++ [byte (80 >>> 8), byte 80])) =
        some ([97, 98] ++ [58] ++ [56, 48]) :=
  (ParseSocksAddr_layout sampleLib ⟨fun b => b, fun _ => [56, 48], fun h q => h ++ [58] ++ q⟩
    [97, 98, 58, 56, 48] [97, 98] [56, 48] 80 (by decide) (by decide)
    (by decide)).2.2.2.2 rfl (by decide)

/-! ## C13 and C20: the session queue -/

theorem copy_make (buf : List Byte) (n : Nat) (h : n ≤ buf.length) :
    copy (make n) buf = buf.take n := by
  unfold copy
  rw [make_length, List.length_take, Nat.min_eq_left h]
  have : List.drop n (make n) = [] := List.drop_eq_nil_of_le (by rw [make_length])
  rw [this, List.append_nil]

theorem copy_make_length (buf : List Byte) (n : Nat) : (copy (make n) buf).length = n := by
  rw [copy_length, make_length]

theorem enqueue_full (ch : PacketChan) (buf : List Byte) (n : Nat)
    (h : ch.cap ≤ ch.queue.length) : Client.enqueue ch buf n = (ch, false) := by
  unfold Client.enqueue PacketChan.trySend
  rw [if_neg (by omega)]

theorem enqueue_room (ch : PacketChan) (buf : List Byte) (n : Nat)
    (h : ch.queue.length < ch.cap) :
    Client.enqueue ch buf n =
      ({ ch with queue := ch.queue ++ [some (copy (make n) buf)] }, true) := by
  unfold Client.enqueue PacketChan.trySend
  rw [if_pos h]

theorem frames_append (ps qs : List (List Byte)) : frames (ps ++ qs) = frames ps ++ frames qs := by
  induction ps with
  | nil => rfl
  | cons p ps ih =>
    show frame p ++ frames (ps ++ qs) = frame p ++ frames ps ++ frames qs
    rw [ih, List.append_assoc]

theorem payloads_append_some (vs : List (Option (List Byte))) (b : List Byte) :
    payloads (vs ++ [some b]) = payloads vs ++ [b] := by
  simp [payloads, List.filterMap_append]

theorem payloads_append_none (vs : List (Option (List Byte))) :
    payloads (vs ++ [none]) = payloads vs := by
  simp [payloads, List.filterMap_append]

/-- An accepted `Write` on a connection whose stream writes all succeed. -/
theorem Write_clean (c : defaultConn) (b : List Byte) (hb : b.length + 2 ≤ MaxPacketSize)
    (hw : c.Conn.wfault = []) :
    c.Write b = ((b.length, none),
      { c with Conn := { c.Conn with wr := c.Conn.wr ++ frame b } }) := by
  unfold defaultConn.Write NetConn.Write
  simp only [gt_iff_lt, if_neg (Nat.not_lt.mpr hb), hw, byte_shiftRight, byte_and, frame,
    List.append_assoc]

/-- One event of the queue keeps the session of the code in step with the
FIFO of the specification: same waiting payloads, and the stream holds the
frames of the payloads transmitted. -/
theorem Session.step_refines (w0 : List Byte) (K : Nat) (s : Session) (q : SpecFifo)
    (ev : Event)
    (hK : s.pbuf.cap = K) (hd : s.done = none) (hw : s.rc.Conn.wfault = [])
    (hq : s.pbuf.queue = q.queued.map some)
    (hwr : s.rc.Conn.wr = w0 ++ frames q.sent)
    (hsz : ∀ p ∈ q.queued, p.length + 2 ≤ MaxPacketSize)
    (hev : ev.relayable) :
    (s.step ev).pbuf.cap = K ∧ (s.step ev).done = none ∧
    (s.step ev).rc.Conn.wfault = [] ∧
    (s.step ev).pbuf.queue = (q.step K ev).queued.map some ∧
    (s.step ev).rc.Conn.wr = w0 ++ frames (q.step K ev).sent ∧
    (∀ p ∈ (q.step K ev).queued, p.length + 2 ≤ MaxPacketSize) := by
  have hlen : s.pbuf.queue.length = q.queued.length := by rw [hq, List.length_map]
  cases ev with
  | packet buf n =>
    obtain ⟨hn, hmax⟩ := hev
    simp only [Session.step, SpecFifo.step]
    by_cases hroom : s.pbuf.queue.length < s.pbuf.cap
    · rw [enqueue_room _ _ _ hroom, copy_make buf n hn, if_pos (by omega)]
      refine ⟨hK, hd, hw, ?_, hwr, ?_⟩
      · show s.pbuf.queue ++ [some (List.take n buf)] = _
        rw [hq, List.map_append]; rfl
      · intro p hp
        have hp2 : p ∈ q.queued ++ [List.take n buf] := hp
        rw [List.mem_append] at hp2
        rcases hp2 with hp2 | hp2
        · exact hsz p hp2
        · rw [List.mem_singleton] at hp2
          rw [hp2, List.length_take]
          omega
    · rw [enqueue_full _ _ _ (by omega), if_neg (by omega)]
      exact ⟨hK, hd, hw, hq, hwr, hsz⟩
  | uplink =>
    simp only [Session.step, SpecFifo.step, hd]
    match hqq : q.queued with
    | [] =>
      rw [hqq] at hq
      rw [hq]
      simp only [List.map_nil]
      refine ⟨hK, hd, hw, ?_, hwr, ?_⟩
      · rw [hq, hqq]
      · intro p hp; rw [hqq] at hp; cases hp
    | p :: rest =>
      rw [hqq] at hq hsz
      rw [hq]
      simp only [List.map_cons]
      rw [Write_clean s.rc p (hsz p (List.mem_cons_self _ _)) hw]
      dsimp only
      refine ⟨hK, rfl, hw, rfl, ?_, ?_⟩
      · show s.rc.Conn.wr ++ frame p = _
        rw [hwr, frames_append, List.append_assoc]
        simp [frames]
      · intro p2 hp2
        exact hsz p2 (List.mem_cons_of_mem _ hp2)
  | timer => exact absurd hev (by simp [Event.relayable])
  | sentinel => exact absurd hev (by simp [Event.relayable])

theorem Session.run_refines (w0 : List Byte) (K : Nat) (evs : List Event) :
    ∀ (s : Session) (q : SpecFifo), s.pbuf.cap = K → s.done = none →
      s.rc.Conn.wfault = [] → s.pbuf.queue = q.queued.map some →
      s.rc.Conn.wr = w0 ++ frames q.sent →
      (∀ p ∈ q.queued, p.length + 2 ≤ MaxPacketSize) →
      (∀ ev ∈ evs, ev.relayable) →
      (s.run evs).pbuf.queue = (q.run K evs).queued.map some ∧
      (s.run evs).rc.Conn.wr = w0 ++ frames (q.run K evs).sent ∧
      (s.run evs).done = none := by
  induction evs with
  | nil => intro s q _ hd _ hq hwr _ _; exact ⟨hq, hwr, hd⟩
  | cons ev evs ih =>
    intro s q hK hd hw hq hwr hsz hev
    obtain ⟨k1, d1, w1, q1, wr1, sz1⟩ := Session.step_refines w0 K s q ev hK hd hw hq hwr hsz
      (hev ev (List.mem_cons_self _ _))
    exact ih (s.step ev) (q.step K ev) k1 d1 w1 q1 wr1 sz1
      (fun e he => hev e (List.mem_cons_of_mem _ he))

theorem frames_cons_ne_nil (p : List Byte) (ps : List (List Byte)) : frames (p :: ps) ≠ [] := by
  intro h
  have h2 := congrArg List.length h
  simp only [frames, frame, List.length_append, List.length_cons, List.length_nil] at h2
  omega

/-- A datagram that `Write` rejects: it is queued, the uplink takes it from the
queue, `Write` returns the packet-too-large error without writing, and the
uplink ends with that error. -/
theorem oversize_datagram_not_written (s : Session) (buf : List Byte) (n : Nat)
    (hd : s.done = none) (hq : s.pbuf.queue = []) (hcap : 0 < s.pbuf.cap)
    (hn : n ≤ buf.length) (hbig : MaxPacketSize < n + 2) :
    (s.step (Event.packet buf n)).pbuf.queue = [some (buf.take n)] ∧
    (s.run [Event.packet buf n, Event.uplink]).pbuf.queue = [] ∧
    (s.run [Event.packet buf n, Event.uplink]).rc = s.rc ∧
    (s.run [Event.packet buf n, Event.uplink]).done = some (some Err.overMaxPacketSize) := by
  have hroom : s.pbuf.queue.length < s.pbuf.cap := by rw [hq]; exact hcap
  have h1 : s.step (Event.packet buf n) =
      { s with pbuf := { s.pbuf with queue := [some (buf.take n)] },
               kept := s.kept ++ [some (buf.take n)] } := by
    simp only [Session.step]
    rw [enqueue_room _ _ _ hroom, copy_make buf n hn, hq]
    rfl
  have hlen : (buf.take n).length = n := by rw [List.length_take]; omega
  have h2 : s.run [Event.packet buf n, Event.uplink] =
      { s with pbuf := { s.pbuf with queue := [] }, done := some (some Err.overMaxPacketSize),
               kept := s.kept ++ [some (buf.take n)],
               taken := s.taken ++ [some (buf.take n)] } := by
    show (s.step (Event.packet buf n)).step Event.uplink = _
    rw [h1]
    simp only [Session.step, hd]
    rw [Write_too_large s.rc (buf.take n) (by rw [hlen]; exact hbig)]
  refine ⟨by rw [h1], ?_, ?_, ?_⟩ <;> rw [h2]

/-- C13 as stated fails on both counts that the amended claim names.  First,
even on a stream whose writes succeed, the bytes written are not the frames of
the payloads the FIFO of the specification transmits: a datagram of 65506
bytes is queued, not dropped, and the uplink that takes it writes nothing and
ends.  Second, even for datagrams that `Write` accepts, the same is false on a
stream that refuses a write: the datagram `01` is taken from the queue and no
frame is written. -/
theorem Session_queue_order_not_unconditional :
    ¬ (∀ (w0 : List Byte) (s : Session) (q : SpecFifo) (evs : List Event),
        s.done = none → s.rc.Conn.wfault = [] → s.pbuf.queue = q.queued.map some →
        s.rc.Conn.wr = w0 ++ frames q.sent → (∀ ev ∈ evs, ev.queueEvent) →
        (s.run evs).rc.Conn.wr = w0 ++ frames (q.run s.pbuf.cap evs).sent) ∧
    ¬ (∀ (w0 : List Byte) (s : Session) (q : SpecFifo) (evs : List Event),
        s.done = none → s.pbuf.queue = q.queued.map some →
        s.rc.Conn.wr = w0 ++ frames q.sent →
        (∀ p ∈ q.queued, p.length + 2 ≤ MaxPacketSize) → (∀ ev ∈ evs, ev.relayable) →
        (s.run evs).rc.Conn.wr = w0 ++ frames (q.run s.pbuf.cap evs).sent) := by
  constructor
  · intro h
    have h1 := h [] (Session.mk ⟨2, []⟩ ⟨⟨⟨[], Err.EOF⟩, [], []⟩, true⟩ none [] []) ⟨[], []⟩
      [Event.packet (make 65506) 65506, Event.uplink] rfl rfl rfl rfl
      (by
        intro ev hev
        simp only [List.mem_cons, List.mem_singleton, List.mem_nil_iff, or_false] at hev
        rcases hev with rfl | rfl
        · show 65506 ≤ (make 65506).length
          rw [make_length]
        · trivial)
    have h2 := (oversize_datagram_not_written
      (Session.mk ⟨2, []⟩ ⟨⟨⟨[], Err.EOF⟩, [], []⟩, true⟩ none [] []) (make 65506) 65506
      rfl rfl (by decide) (by rw [make_length]) (by decide)).2.2.1
    rw [h2] at h1
    have hsent : (SpecFifo.run 2 ⟨[], []⟩
        [Event.packet (make 65506) 65506, Event.uplink]).sent = [(make 65506).take 65506] := by
      simp only [SpecFifo.run, List.foldl, SpecFifo.step, List.length_nil, Nat.ofNat_pos,
        if_true, List.nil_append]
    have h3 : ([] : List Byte) = [] ++ frames [(make 65506).take 65506] := by
      rw [← hsent]; exact h1
    rw [List.nil_append] at h3
    exact frames_cons_ne_nil _ _ h3.symm
  · intro h
    have h1 := h [] (Session.mk ⟨2, []⟩ ⟨⟨⟨[], Err.EOF⟩, [], [some (Err.other 32)]⟩, true⟩
      none [] []) ⟨[], []⟩ [Event.packet [1] 1, Event.uplink] rfl rfl rfl
      (by intro p hp; cases hp)
      (by
        intro ev hev
        simp only [List.mem_cons, List.mem_singleton, List.mem_nil_iff, or_false] at hev
        rcases hev with rfl | rfl
        · exact ⟨by decide, by decide⟩
        · trivial)
    exact absurd h1 (by decide)

/-- C13 (amended): an ingress enqueue on a queue that holds as many values as
its capacity leaves the queue unchanged and reports the drop, without blocking;
on a queue with room it appends the copy of the first `n` bytes at the tail; an
uplink step takes the value at the head of the queue; and over every sequence
of arrivals and uplink steps, every datagram having at most 65505 bytes
(`n + 2` at most `MaxPacketSize`) and the stream writes succeeding, the session
stays in step with the bounded FIFO of the specification: the queue holds the
payloads that wait there, in arrival order, the stream holds the frames of the
payloads transmitted there, in arrival order, and the uplink is still
running. -/
theorem Session_refines_fifo (w0 : List Byte) (s : Session) (q : SpecFifo)
    (evs : List Event)
    (hd : s.done = none) (hw : s.rc.Conn.wfault = [])
    (hq : s.pbuf.queue = q.queued.map some)
    (hwr : s.rc.Conn.wr = w0 ++ frames q.sent)
    (hsz : ∀ p ∈ q.queued, p.length + 2 ≤ MaxPacketSize)
    (hev : ∀ ev ∈ evs, ev.relayable) :
    (∀ (ch : PacketChan) (buf : List Byte) (n : Nat), ch.cap ≤ ch.queue.length →
      Client.enqueue ch buf n = (ch, false)) ∧
    (∀ (ch : PacketChan) (buf : List Byte) (n : Nat), ch.queue.length < ch.cap →
      n ≤ buf.length →
      Client.enqueue ch buf n = ({ ch with queue := ch.queue ++ [some (buf.take n)] }, true)) ∧
    (∀ (t : Session) (v : Option (List Byte)) (rest : List (Option (List Byte))),
      t.done = none → t.pbuf.queue = v :: rest → (t.step Event.uplink).pbuf.queue = rest) ∧
    (s.run evs).pbuf.queue = (q.run s.pbuf.cap evs).queued.map some ∧
    (s.run evs).rc.Conn.wr = w0 ++ frames (q.run s.pbuf.cap evs).sent ∧
    (s.run evs).done = none := by
  refine ⟨enqueue_full, ?_, ?_,
    Session.run_refines w0 s.pbuf.cap evs s q rfl hd hw hq hwr hsz hev⟩
  · intro ch buf n hroom hn
    rw [enqueue_room ch buf n hroom, copy_make buf n hn]
  · intro t v rest htd htq
    simp only [Session.step, htd, htq]
    cases v with
    | none => rfl
    | some b =>
      dsimp only
      match t.rc.Write b with
      | ((_, some e), rc) => rfl
      | ((_, none), rc) => rfl

/-- Witness for C13: a queue of capacity 2, three datagrams `01`, `02`, `03`
and then three uplink steps: the third datagram is dropped and the frames of
the first two are written, in order. -/
theorem Session_refines_fifo_witness :
    (∀ (ch : PacketChan) (buf : List Byte) (n : Nat), ch.cap ≤ ch.queue.length →
      Client.enqueue ch buf n = (ch, false)) ∧
    (∀ (ch : PacketChan) (buf : List Byte) (n : Nat), ch.queue.length < ch.cap →
      n ≤ buf.length →
      Client.enqueue ch buf n = ({ ch with queue := ch.queue ++ [some (buf.take n)] }, true)) ∧
    (∀ (t : Session) (v : Option (List Byte)) (rest : List (Option (List Byte))),
      t.done = none → t.pbuf.queue = v :: rest → (t.step Event.uplink).pbuf.queue = rest) ∧
    ((Session.mk ⟨2, []⟩ ⟨⟨⟨[], Err.EOF⟩, [], []⟩, true⟩ none [] []).run
        [Event.packet [1] 1, Event.packet [2] 1, Event.packet [3] 1,
          Event.uplink, Event.uplink, Event.uplink]).pbuf.queue =
      ((SpecFifo.mk [] []).run (PacketChan.mk 2 []).cap
        [Event.packet [1] 1, Event.packet [2] 1, Event.packet [3] 1,
          Event.uplink, Event.uplink, Event.uplink]).queued.map some ∧
    ((Session.mk ⟨2, []⟩ ⟨⟨⟨[], Err.EOF⟩, [], []⟩, true⟩ none [] []).run
        [Event.packet [1] 1, Event.packet [2] 1, Event.packet [3] 1,
          Event.uplink, Event.uplink, Event.uplink]).rc.Conn.wr =
      [] ++ frames ((SpecFifo.mk [] []).run (PacketChan.mk 2 []).cap
        [Event.packet [1] 1, Event.packet [2] 1, Event.packet [3] 1,
          Event.uplink, Event.uplink, Event.uplink]).sent ∧
    ((Session.mk ⟨2, []⟩ ⟨⟨⟨[], Err.EOF⟩, [], []⟩, true⟩ none [] []).run
        [Event.packet [1] 1, Event.packet [2] 1, Event.packet [3] 1,
          Event.uplink, Event.uplink, Event.uplink]).done = none :=
  Session_refines_fifo [] (Session.mk ⟨2, []⟩ ⟨⟨⟨[], Err.EOF⟩, [], []⟩, true⟩ none [] [])
    (SpecFifo.mk [] [])
    [Event.packet [1] 1, Event.packet [2] 1, Event.packet [3] 1,
      Event.uplink, Event.uplink, Event.uplink]
    rfl rfl rfl rfl (by intro p hp; cases hp)
    (by
      intro ev hev
      simp only [List.mem_cons, List.mem_singleton, List.mem_nil_iff, or_false] at hev
      rcases hev with rfl | rfl | rfl | rfl | rfl | rfl
      · exact ⟨by decide, by decide⟩
      · exact ⟨by decide, by decide⟩
      · exact ⟨by decide, by decide⟩
      · trivial
      · trivial
      · trivial)

/-- The FIFO of the specification on the events of C13's witness: the third
payload is dropped, the first two are transmitted in arrival order. -/
theorem SpecFifo_overflow_example :
    (SpecFifo.mk [] []).run 2
        [Event.packet [1] 1, Event.packet [2] 1, Event.packet [3] 1,
          Event.uplink, Event.uplink, Event.uplink] = ⟨[], [[1], [2]]⟩ := by
  decide

/-- The scenario of C13 evaluated: with capacity 2 the third datagram is
dropped and the uplink writes the frames of the first two, in order. -/
theorem Session_queue_overflow_example :
    ((Session.mk ⟨2, []⟩ ⟨⟨⟨[], Err.EOF⟩, [], []⟩, true⟩ none [] []).run
        [Event.packet [1] 1, Event.packet [2] 1, Event.packet [3] 1,
          Event.uplink, Event.uplink, Event.uplink]).rc.Conn.wr =
      [0, 1, 1, 0, 1, 2] := by
  decide

/-- C20: for a datagram of `n` bytes the value `Client.Serve` offers to the
queue is the non-nil copy of the first `n` bytes of the read buffer, also for
`n = 0`; an uplink step that receives it does not end the uplink and writes it
as one frame, the two bytes `00 00` for `n = 0`; an uplink step that receives
the nil value ends the uplink with a nil error and writes nothing. -/
theorem zero_length_datagram_is_data (s : Session) (buf : List Byte) (n : Nat)
    (rest : List (Option (List Byte)))
    (hdone : s.done = none) (hw : s.rc.Conn.wfault = [])
    (hn : n ≤ buf.length) (hsz : n + 2 ≤ MaxPacketSize) :
    (∀ ch : PacketChan, ch.queue.length < ch.cap →
      Client.enqueue ch buf n = ({ ch with queue := ch.queue ++ [some (buf.take n)] }, true) ∧
      (buf.take n).length = n) ∧
    (s.pbuf.queue = some (buf.take n) :: rest →
      (s.step Event.uplink).done = none ∧
      (s.step Event.uplink).pbuf.queue = rest ∧
      (s.step Event.uplink).rc.Conn.wr = s.rc.Conn.wr ++ frame (buf.take n) ∧
      (n = 0 → (s.step Event.uplink).rc.Conn.wr = s.rc.Conn.wr ++ [0, 0])) ∧
    (s.pbuf.queue = none :: rest →
      (s.step Event.uplink).done = some none ∧
      (s.step Event.uplink).pbuf.queue = rest ∧
      (s.step Event.uplink).rc.Conn.wr = s.rc.Conn.wr) := by
  have hlen : (buf.take n).length = n := by rw [List.length_take]; omega
  refine ⟨?_, ?_, ?_⟩
  · intro ch hroom
    rw [enqueue_room ch buf n hroom, copy_make buf n hn]
    exact ⟨rfl, hlen⟩
  · intro hq
    have hstep : s.step Event.uplink =
        { s with pbuf := { s.pbuf with queue := rest },
                 rc := { s.rc with Conn := { s.rc.Conn with
                   wr := s.rc.Conn.wr ++ frame (buf.take n) } },
                 taken := s.taken ++ [some (buf.take n)] } := by
      simp only [Session.step, hdone, hq]
      rw [Write_clean s.rc (buf.take n) (by rw [hlen]; exact hsz) hw]
    rw [hstep]
    refine ⟨hdone, rfl, rfl, ?_⟩
    intro h0
    subst h0
    have hf : frame (List.take 0 buf) = [0, 0] := by rw [List.take_zero]; decide
    show s.rc.Conn.wr ++ frame (List.take 0 buf) = _
    rw [hf]
  · intro hq
    have hstep : s.step Event.uplink =
        { s with pbuf := { s.pbuf with queue := rest }, done := some none,
                 taken := s.taken ++ [none] } := by
      simp only [Session.step, hdone, hq]
    rw [hstep]
    exact ⟨rfl, rfl, rfl⟩

/-- Witness for C20: a datagram of length 0 queued in a session whose stream
is empty. -/
theorem zero_length_datagram_is_data_witness :
    (∀ ch : PacketChan, ch.queue.length < ch.cap →
      Client.enqueue ch (make MaxPacketSize) 0 =
        ({ ch with queue := ch.queue ++ [some ((make MaxPacketSize).take 0)] }, true) ∧
      ((make MaxPacketSize).take 0).length = 0) ∧
    ((Session.mk ⟨8, [some []]⟩ ⟨⟨⟨[], Err.EOF⟩, [], []⟩, true⟩ none [some []] []).pbuf.queue =
        some ((make MaxPacketSize).take 0) :: [] →
      ((Session.mk ⟨8, [some []]⟩ ⟨⟨⟨[], Err.EOF⟩, [], []⟩, true⟩ none [some []] []).step
        Event.uplink).done = none ∧
      ((Session.mk ⟨8, [some []]⟩ ⟨⟨⟨[], Err.EOF⟩, [], []⟩, true⟩ none [some []] []).step
        Event.uplink).pbuf.queue = [] ∧
      ((Session.mk ⟨8, [some []]⟩ ⟨⟨⟨[], Err.EOF⟩, [], []⟩, true⟩ none [some []] []).step
        Event.uplink).rc.Conn.wr = [] ++ frame ((make MaxPacketSize).take 0) ∧
      (0 = 0 →
        ((Session.mk ⟨8, [some []]⟩ ⟨⟨⟨[], Err.EOF⟩, [], []⟩, true⟩ none [some []] []).step
          Event.uplink).rc.Conn.wr = [] ++ [0, 0])) ∧
    ((Session.mk ⟨8, [some []]⟩ ⟨⟨⟨[], Err.EOF⟩, [], []⟩, true⟩ none [some []] []).pbuf.queue =
        none :: [] →
      ((Session.mk ⟨8, [some []]⟩ ⟨⟨⟨[], Err.EOF⟩, [], []⟩, true⟩ none [some []] []).step
        Event.uplink).done = some none ∧
      ((Session.mk ⟨8, [some []]⟩ ⟨⟨⟨[], Err.EOF⟩, [], []⟩, true⟩ none [some []] []).step
        Event.uplink).pbuf.queue = [] ∧
      ((Session.mk ⟨8, [some []]⟩ ⟨⟨⟨[], Err.EOF⟩, [], []⟩, true⟩ none [some []] []).step
        Event.uplink).rc.Conn.wr = []) :=
  zero_length_datagram_is_data
    (Session.mk ⟨8, [some []]⟩ ⟨⟨⟨[], Err.EOF⟩, [], []⟩, true⟩ none [some []] [])
    (make MaxPacketSize) 0 [] rfl rfl (Nat.zero_le _) (by decide)

/-! ## C14 and C18: the error `relay` reports -/

theorem relayResult_cases (err err1 : Option Err) :
    Server.relayResult err err1 = Client.relayResult err err1 ∧
    (errorsIs err Err.ErrDeadlineExceeded = false → Client.relayResult err err1 = err) ∧
    (errorsIs err Err.ErrDeadlineExceeded = true →
      errorsIs err1 Err.ErrDeadlineExceeded = false → Client.relayResult err err1 = err1) ∧
    (errorsIs err Err.ErrDeadlineExceeded = true →
      errorsIs err1 Err.ErrDeadlineExceeded = true → Client.relayResult err err1 = none) := by
  refine ⟨rfl, ?_, ?_, ?_⟩
  · intro h; simp [Client.relayResult, h]
  · intro h h1; simp [Client.relayResult, h, h1]
  · intro h h1; simp [Client.relayResult, h, h1]

theorem relayResult_not_deadline (err err1 : Option Err) :
    errorsIs (Client.relayResult err err1) Err.ErrDeadlineExceeded = false := by
  obtain ⟨_, h1, h2, h3⟩ := relayResult_cases err err1
  cases h : errorsIs err Err.ErrDeadlineExceeded with
  | false => rw [h1 h]; exact h
  | true =>
    cases h' : errorsIs err1 Err.ErrDeadlineExceeded with
    | false => rw [h2 h h']; exact h'
    | true => rw [h3 h h']; rfl

/-- C14: for every pair of terminal errors, the main loop's `err` and the
other task's `err1`, the error returned by the last statements of
`Client.relay` and of `Server.relay` is never a deadline-exceeded error, and it
is nil when each of the two is deadline-exceeded or nil. -/
theorem relay_never_reports_deadline (err err1 : Option Err) :
    errorsIs (Client.relayResult err err1) Err.ErrDeadlineExceeded = false ∧
    errorsIs (Server.relayResult err err1) Err.ErrDeadlineExceeded = false ∧
    ((errorsIs err Err.ErrDeadlineExceeded = true ∨ err = none) →
      (errorsIs err1 Err.ErrDeadlineExceeded = true ∨ err1 = none) →
      Client.relayResult err err1 = none ∧ Server.relayResult err err1 = none) := by
  obtain ⟨hs, h1, h2, h3⟩ := relayResult_cases err err1
  have hc := relayResult_not_deadline err err1
  have hn : (errorsIs err Err.ErrDeadlineExceeded = true ∨ err = none) →
      (errorsIs err1 Err.ErrDeadlineExceeded = true ∨ err1 = none) →
      Client.relayResult err err1 = none := by
    intro he he1
    rcases he with he | he
    · rcases he1 with he1 | he1
      · exact h3 he he1
      · subst he1; exact h2 he rfl
    · subst he; exact h1 rfl
  refine ⟨hc, ?_, ?_⟩
  · rw [hs]; exact hc
  · intro he he1
    exact ⟨hn he he1, by rw [hs]; exact hn he he1⟩

/-- C18: when `Client.relay` has collected its two terminal errors (the main
loop has ended with the error `e`, the send `pbuf <- nil` has gone through, and
`err1` has arrived on `done`), it returns, and so does `Server.relay` for the
same pair (for the `*net.UDPAddr` the handshake yields); both return the same
value `r`: it is `e` when `e` is not deadline-exceeded, otherwise `err1` when
that is not deadline-exceeded; so when one of the two is a genuine error
(non-nil, not deadline-exceeded) `r` is a genuine error, the first of the pair,
and `r` is nil only when neither is genuine. -/
theorem relay_reports_genuine_error (steps : List (Option Err × Option Err)) (e : Err)
    (s s' : Session) (evs evs' : List Event)
    (err1 : Option Err) (ip : List Byte) (port : Nat) (resolveErr : Option Err)
    (hloop : relayLoop steps = some e)
    (hsend : Client.sendSentinel s (evs.filter (fun ev => ev ≠ Event.sentinel)) =
      some (s', evs'))
    (hdone : Client.awaitDone s' evs' = some err1) :
    ∃ r, Client.relay steps s evs = some r ∧
      Server.relay (NetAddr.UDPAddr ip port) resolveErr steps err1 = some r ∧
      (errorsIs (some e) Err.ErrDeadlineExceeded = false → r = some e) ∧
      (errorsIs (some e) Err.ErrDeadlineExceeded = true →
        errorsIs err1 Err.ErrDeadlineExceeded = false → r = err1) ∧
      (errorsIs (some e) Err.ErrDeadlineExceeded = false ∨
          (err1 ≠ none ∧ errorsIs err1 Err.ErrDeadlineExceeded = false) →
        r ≠ none ∧ errorsIs r Err.ErrDeadlineExceeded = false) ∧
      (r = none → errorsIs (some e) Err.ErrDeadlineExceeded = true ∧
        (err1 = none ∨ errorsIs err1 Err.ErrDeadlineExceeded = true)) := by
  obtain ⟨hs, h1, h2, h3⟩ := relayResult_cases (some e) err1
  have hnd := relayResult_not_deadline (some e) err1
  refine ⟨Client.relayResult (some e) err1, ?_, ?_, h1, h2, ?_, ?_⟩
  · simp only [Client.relay, hloop, hsend, hdone]
  · simp only [Server.relay, hloop, hs]
  · intro hg
    refine ⟨?_, hnd⟩
    rcases hg with hg | ⟨hne, hg⟩
    · rw [h1 hg]; exact Option.some_ne_none e
    · cases h : errorsIs (some e) Err.ErrDeadlineExceeded with
      | false => rw [h1 h]; exact Option.some_ne_none e
      | true => rw [h2 h hg]; exact hne
  · intro hr
    cases h : errorsIs (some e) Err.ErrDeadlineExceeded with
    | false => rw [h1 h] at hr; cases hr
    | true =>
      refine ⟨rfl, ?_⟩
      cases h' : errorsIs err1 Err.ErrDeadlineExceeded with
      | false => rw [h2 h h'] at hr; exact Or.inl hr
      | true => exact Or.inr rfl

/-- Witness for C18: the main loop ends in its second iteration with a
deadline-exceeded error wrapped by the network layer; the queue holds one
payload and has room for the nil value; the uplink then takes the payload and
its write fails with a connection reset, which it sends on `done`. -/
theorem relay_reports_genuine_error_witness :
    ∃ r, Client.relay [(none, none), (some (Err.wrap 1 Err.ErrDeadlineExceeded), none)]
          (Session.mk ⟨8, [some [1]]⟩ ⟨⟨⟨[], Err.EOF⟩, [], [some (Err.other 104)]⟩, true⟩ none
            [some [1]] [])
          [Event.uplink] = some r ∧
      Server.relay (NetAddr.UDPAddr [109, 200, 208, 201] 443) none
          [(none, none), (some (Err.wrap 1 Err.ErrDeadlineExceeded), none)]
          (some (Err.other 104)) = some r ∧
      (errorsIs (some (Err.wrap 1 Err.ErrDeadlineExceeded)) Err.ErrDeadlineExceeded = false →
        r = some (Err.wrap 1 Err.ErrDeadlineExceeded)) ∧
      (errorsIs (some (Err.wrap 1 Err.ErrDeadlineExceeded)) Err.ErrDeadlineExceeded = true →
        errorsIs (some (Err.other 104)) Err.ErrDeadlineExceeded = false →
        r = some (Err.other 104)) ∧
      (errorsIs (some (Err.wrap 1 Err.ErrDeadlineExceeded)) Err.ErrDeadlineExceeded = false ∨
          (some (Err.other 104) ≠ none ∧
            errorsIs (some (Err.other 104)) Err.ErrDeadlineExceeded = false) →
        r ≠ none ∧ errorsIs r Err.ErrDeadlineExceeded = false) ∧
      (r = none →
        errorsIs (some (Err.wrap 1 Err.ErrDeadlineExceeded)) Err.ErrDeadlineExceeded = true ∧
        (some (Err.other 104) = none ∨
          errorsIs (some (Err.other 104)) Err.ErrDeadlineExceeded = true)) :=
  relay_reports_genuine_error [(none, none), (some (Err.wrap 1 Err.ErrDeadlineExceeded), none)]
    (Err.wrap 1 Err.ErrDeadlineExceeded)
    (Session.mk ⟨8, [some [1]]⟩ ⟨⟨⟨[], Err.EOF⟩, [], [some (Err.other 104)]⟩, true⟩ none
      [some [1]] [])
    (Session.mk ⟨8, [some [1], none]⟩ ⟨⟨⟨[], Err.EOF⟩, [], [some (Err.other 104)]⟩, true⟩ none
      [some [1], none] [])
    [Event.uplink] [Event.uplink]
    (some (Err.other 104)) [109, 200, 208, 201] 443 none
    rfl rfl rfl

/-- The run of C18's witness evaluated: `Client.relay` returns the connection
reset, the genuine error of the pair. -/
theorem relay_example :
    Client.relay [(none, none), (some (Err.wrap 1 Err.ErrDeadlineExceeded), none)]
        (Session.mk ⟨8, [some [1]]⟩ ⟨⟨⟨[], Err.EOF⟩, [], [some (Err.other 104)]⟩, true⟩ none
          [some [1]] [])
        [Event.uplink] = some (some (Err.other 104)) := by
  rfl

theorem step_keeps_full_queue (s : Session) (ev : Event) (hd : s.done ≠ none)
    (hfull : s.pbuf.cap ≤ s.pbuf.queue.length) :
    (s.step ev).done ≠ none ∧ (s.step ev).pbuf.cap ≤ (s.step ev).pbuf.queue.length := by
  cases ev with
  | packet buf n =>
    simp only [Session.step]
    rw [enqueue_full _ _ _ hfull]
    exact ⟨hd, hfull⟩
  | uplink =>
    simp only [Session.step]
    cases h : s.done with
    | none => exact absurd h hd
    | some e => exact ⟨by rw [h]; exact Option.some_ne_none e, hfull⟩
  | timer =>
    simp only [Session.step]
    cases h : s.done with
    | none => exact absurd h hd
    | some e => exact ⟨by rw [h]; exact Option.some_ne_none e, hfull⟩
  | sentinel =>
    simp only [Session.step]
    rw [if_neg (by omega)]
    exact ⟨hd, hfull⟩

theorem sendSentinel_blocked (evs : List Event) :
    ∀ s : Session, s.done ≠ none → s.pbuf.cap ≤ s.pbuf.queue.length →
      Client.sendSentinel s evs = none := by
  induction evs with
  | nil =>
    intro s _ hfull
    simp only [Client.sendSentinel]
    rw [if_neg (by omega)]
  | cons ev evs ih =>
    intro s hd hfull
    simp only [Client.sendSentinel]
    rw [if_neg (by omega)]
    obtain ⟨hd', hfull'⟩ := step_keeps_full_queue s ev hd hfull
    exact ih (s.step ev) hd' hfull'

/-- Where `Client.relay` does not return: when the main loop ends while the
uplink goroutine has already ended and the queue is full, the send
`pbuf <- nil` stays blocked whatever happens afterwards, so no pair of terminal
errors is collected and the session goroutine never reaches `nat.Del`. -/
theorem relay_blocked_on_full_queue (steps : List (Option Err × Option Err)) (s : Session)
    (evs : List Event) (hd : s.done ≠ none) (hfull : s.pbuf.cap ≤ s.pbuf.queue.length) :
    Client.relay steps s evs = none := by
  unfold Client.relay
  cases relayLoop steps with
  | none => rfl
  | some err =>
    dsimp only
    rw [sendSentinel_blocked _ s hd hfull]

/-- The pair the main loop cannot produce: were its error nil, the last
statements of `relay` would return nil whatever the other task's error.  The
loop is left only through a `break` that follows a non-nil error, which is why
`relayLoop` yields an `Err` and not a nilable error. -/
theorem relayResult_of_nil (err1 : Option Err) :
    Client.relayResult none err1 = none ∧ Server.relayResult none err1 = none :=
  ⟨rfl, rfl⟩

/-! ## C15: the session table is a finite map -/

/-- C15: after `Set(k, q)`, `Get(k)` returns `q` and `Get(k')` is unchanged for
every other key; after `Del(k)`, `Get(k)` returns nil and `Get(k')` is
unchanged; `Del(k)` returns what `Get(k)` returned before; and when `k` is
absent `Del(k)` returns nil and leaves the table unchanged.  `Get` only returns
a value: it has no table to change. -/
theorem nat_finite_map (t : nat) (k k' : String) (q : Chan) (hne : k' ≠ k) :
    (t.Set k q).Get k = q ∧ (t.Set k q).Get k' = t.Get k' ∧
    (t.Del k).2.Get k = none ∧ (t.Del k).2.Get k' = t.Get k' ∧
    (t.Del k).1 = t.Get k ∧
    (t.m k = none → (t.Del k).1 = none ∧ (t.Del k).2 = t) := by
  refine ⟨nat_Get_Set t k q, ?_, nat_Get_Del t k, ?_, ?_, ?_⟩
  · simp [nat.Get, nat.Set, hne]
  · unfold nat.Del
    cases h : t.m k with
    | none => rfl
    | some buf => simp [nat.Get, hne]
  · unfold nat.Del nat.Get
    cases h : t.m k with
    | none => rfl
    | some buf => rfl
  · intro h
    unfold nat.Del
    rw [h]
    exact ⟨rfl, rfl⟩

/-- Witness for C15: a table that holds one session, and a second peer. -/
theorem nat_finite_map_witness :
    (((nat.mk (fun _ => none)).Set "10.0.0.2:5000" (some 0)).Set "10.0.0.3:5000" (some 1)).Get
        "10.0.0.3:5000" = some 1 ∧
    (((nat.mk (fun _ => none)).Set "10.0.0.2:5000" (some 0)).Set "10.0.0.3:5000" (some 1)).Get
        "10.0.0.2:5000" = ((nat.mk (fun _ => none)).Set "10.0.0.2:5000" (some 0)).Get
        "10.0.0.2:5000" ∧
    (((nat.mk (fun _ => none)).Set "10.0.0.2:5000" (some 0)).Del "10.0.0.3:5000").2.Get
        "10.0.0.3:5000" = none ∧
    (((nat.mk (fun _ => none)).Set "10.0.0.2:5000" (some 0)).Del "10.0.0.3:5000").2.Get
        "10.0.0.2:5000" = ((nat.mk (fun _ => none)).Set "10.0.0.2:5000" (some 0)).Get
        "10.0.0.2:5000" ∧
    (((nat.mk (fun _ => none)).Set "10.0.0.2:5000" (some 0)).Del "10.0.0.3:5000").1 =
      ((nat.mk (fun _ => none)).Set "10.0.0.2:5000" (some 0)).Get "10.0.0.3:5000" ∧
    (((nat.mk (fun _ => none)).Set "10.0.0.2:5000" (some 0)).m "10.0.0.3:5000" = none →
      (((nat.mk (fun _ => none)).Set "10.0.0.2:5000" (some 0)).Del "10.0.0.3:5000").1 = none ∧
      (((nat.mk (fun _ => none)).Set "10.0.0.2:5000" (some 0)).Del "10.0.0.3:5000").2 =
        (nat.mk (fun _ => none)).Set "10.0.0.2:5000" (some 0)) :=
  nat_finite_map ((nat.mk (fun _ => none)).Set "10.0.0.2:5000" (some 0)) "10.0.0.3:5000"
    "10.0.0.2:5000" (some 1) (by decide)

/-! ## C16: the sockets of a server flow -/

theorem uplinkOps_no_Close (sock : Sock) (steps : List (Option Err × Option Err)) :
    (sock, SockOp.Close) ∉ Server.uplinkOps steps := by
  induction steps with
  | nil => simp [Server.uplinkOps]
  | cons st steps ih =>
    obtain ⟨a, b⟩ := st
    cases a <;> cases b <;> simp [Server.uplinkOps, ih]

theorem downlinkOps_no_Close (sock : Sock) (steps : List (Option Err × Option Err)) :
    (sock, SockOp.Close) ∉ Server.downlinkOps steps := by
  induction steps with
  | nil => simp [Server.downlinkOps]
  | cons st steps ih =>
    obtain ⟨a, b⟩ := st
    cases a <;> cases b <;> simp [Server.downlinkOps, ih]

/-- C16 (fails on the code): in every execution of `Server.Serve`, whatever
the handshake, the listen, the two relay tasks and their errors, no call of
`Close` is made on the tunnel connection or on the UDP socket, by `Serve`
itself or by the goroutine of `relay`; so in every interleaving of the two
tasks the calls on either socket do not end with `Close`. -/
theorem Serve_never_closes (handshake : Option NetAddr × Option Err)
    (listenErr resolveErr : Option Err) (up down : List (Option Err × Option Err))
    (err1 : Option Err) (sock : Sock) :
    (sock, SockOp.Close) ∉
        (Server.Serve handshake listenErr resolveErr up down err1).2.1 ∧
      (sock, SockOp.Close) ∉
        (Server.Serve handshake listenErr resolveErr up down err1).2.2 ∧
      ∀ tr : List (Sock × SockOp),
        tr.Perm ((Server.Serve handshake listenErr resolveErr up down err1).2.1 ++
          (Server.Serve handshake listenErr resolveErr up down err1).2.2) →
        (tr.filter (fun o => o.1 = sock)).getLast? ≠ some (sock, SockOp.Close) := by
  have hmain : (sock, SockOp.Close) ∉
      (Server.Serve handshake listenErr resolveErr up down err1).2.1 := by
    unfold Server.Serve
    obtain ⟨addr, herr⟩ := handshake
    cases herr with
    | some e => simp
    | none =>
      cases listenErr with
      | some e => simp
      | none =>
        cases addr with
        | none => simp
        | some addr =>
          dsimp only
          cases Server.relay addr resolveErr [] err1 with
          | some res => simp
          | none =>
            have := uplinkOps_no_Close sock up
            simp [this]
  have htask : (sock, SockOp.Close) ∉
      (Server.Serve handshake listenErr resolveErr up down err1).2.2 := by
    unfold Server.Serve
    obtain ⟨addr, herr⟩ := handshake
    cases herr with
    | some e => simp
    | none =>
      cases listenErr with
      | some e => simp
      | none =>
        cases addr with
        | none => simp
        | some addr =>
          dsimp only
          cases Server.relay addr resolveErr [] err1 with
          | some res => simp
          | none => exact downlinkOps_no_Close sock down
  refine ⟨hmain, htask, ?_⟩
  intro tr hperm hlast
  have hmem : (sock, SockOp.Close) ∈ tr.filter (fun o => o.1 = sock) :=
    List.mem_of_getLast?_eq_some hlast
  have hmem2 : (sock, SockOp.Close) ∈ tr := List.mem_of_mem_filter hmem
  have hmem3 := (hperm.mem_iff).mp hmem2
  rw [List.mem_append] at hmem3
  rcases hmem3 with h | h
  · exact hmain h
  · exact htask h

/-- The flow of C16 evaluated: the handshake yields the target, the UDP socket
is opened, each task relays one packet and then ends; `Serve` returns and the
last call on each socket is `SetReadDeadline`. -/
theorem Serve_calls_example :
    Server.Serve (some (NetAddr.UDPAddr [109, 200, 208, 201] 443), none) none none
        [(none, none), (some Err.ErrDeadlineExceeded, none)]
        [(none, none), (some Err.EOF, none)] (some Err.EOF) =
      (some (some Err.EOF),
        [(Sock.conn, SockOp.Handshake), (Sock.conn, SockOp.RemoteAddr),
          (Sock.rc, SockOp.ReadFrom), (Sock.conn, SockOp.Write), (Sock.rc, SockOp.ReadFrom),
          (Sock.conn, SockOp.SetReadDeadline)],
        [(Sock.conn, SockOp.Read), (Sock.rc, SockOp.WriteTo), (Sock.conn, SockOp.Read),
          (Sock.rc, SockOp.SetReadDeadline)]) := by
  decide

/-! ## C17: the target of a local packet -/

/-- C17 (fails on the code): for every datagram received into a buffer of at
least 3 bytes, `ReadPacket` returns the number of bytes received, the sender as
remote address and a nil error, and as target the result of resolving the
constant `127.0.0.1:8888`: two datagrams that carry different socks addresses
get the same target, which does not depend on the packet's contents. -/
theorem ReadPacket_target_is_constant
    (ResolveTCPAddr : String → String → Option NetAddr × Option Err)
    (d d' : List Byte) (sender : NetAddr) (p : List Byte) (hp : 3 ≤ p.length) :
    (defaultPacketConn.ReadPacket ResolveTCPAddr d sender none p).1 =
        (min p.length d.length, (ResolveTCPAddr "tcp" "127.0.0.1:8888").1, some sender, none) ∧
      (defaultPacketConn.ReadPacket ResolveTCPAddr d sender none p).1.2.1 =
        (defaultPacketConn.ReadPacket ResolveTCPAddr d' sender none p).1.2.1 := by
  have h : ∀ x : List Byte,
      (defaultPacketConn.ReadPacket ResolveTCPAddr x sender none p).1 =
        (min p.length x.length, (ResolveTCPAddr "tcp" "127.0.0.1:8888").1, some sender,
          none) := by
    intro x
    unfold defaultPacketConn.ReadPacket
    simp only [copy_length]
    rw [if_neg (by omega)]
  refine ⟨h d, ?_⟩
  rw [h d, h d']

/-- Witness for C17: two packets in the SOCKS UDP format, one for 1.2.3.4:53
and one for 8.8.8.8:53, each with the payload `70`. -/
theorem ReadPacket_target_is_constant_witness :
    (defaultPacketConn.ReadPacket (fun _ _ => (some (NetAddr.TCPAddr [127, 0, 0, 1] 8888), none))
        [0, 0, 0, 1, 1, 2, 3, 4, 0, 53, 112] (NetAddr.UDPAddr [10, 0, 0, 2] 5000) none
        (make 16)).1 =
        (min (make 16).length ([0, 0, 0, 1, 1, 2, 3, 4, 0, 53, 112] : List Byte).length,
          ((fun _ _ => (some (NetAddr.TCPAddr [127, 0, 0, 1] 8888), none)) "tcp"
            "127.0.0.1:8888" : Option NetAddr × Option Err).1,
          some (NetAddr.UDPAddr [10, 0, 0, 2] 5000), none) ∧
      (defaultPacketConn.ReadPacket
        (fun _ _ => (some (NetAddr.TCPAddr [127, 0, 0, 1] 8888), none))
        [0, 0, 0, 1, 1, 2, 3, 4, 0, 53, 112] (NetAddr.UDPAddr [10, 0, 0, 2] 5000) none
        (make 16)).1.2.1 =
      (defaultPacketConn.ReadPacket
        (fun _ _ => (some (NetAddr.TCPAddr [127, 0, 0, 1] 8888), none))
        [0, 0, 0, 1, 8, 8, 8, 8, 0, 53, 112] (NetAddr.UDPAddr [10, 0, 0, 2] 5000) none
        (make 16)).1.2.1 :=
  ReadPacket_target_is_constant (fun _ _ => (some (NetAddr.TCPAddr [127, 0, 0, 1] 8888), none))
    [0, 0, 0, 1, 1, 2, 3, 4, 0, 53, 112] [0, 0, 0, 1, 8, 8, 8, 8, 0, 53, 112]
    (NetAddr.UDPAddr [10, 0, 0, 2] 5000) (make 16) (by decide)

/-! ## C19: the slices of `ReadSocksAddr` -/

/-- C19 (fails on the code): on a stream that carries a domain address whose
host is wholly present, `ReadSocksAddr` panics exactly when the length byte is
254 or 255: then the port slice `buf[n:n+2]` ends beyond the `maxAddrLen`-byte
buffer; for a length byte up to 253 it returns an address. -/
theorem ReadSocksAddr_port_slice (t l : Byte) (host tail : List Byte) (fin : Err)
    (ht : t.val = atypDomainName) (hl : l.val = host.length) :
    ((ReadSocksAddr ⟨t :: l :: (host ++ tail), fin⟩).1 = Outcome.panicked ↔ 254 ≤ l.val) ∧
      (l.val ≤ 253 →
        ∃ a, (ReadSocksAddr ⟨t :: l :: (host ++ tail), fin⟩).1 = Outcome.ok a) := by
  have hok : l.val ≤ 253 →
      ∃ a, (ReadSocksAddr ⟨t :: l :: (host ++ tail), fin⟩).1 = Outcome.ok a := by
    intro h253
    by_cases h2 : 2 ≤ tail.length
    · have htail : tail = tail.take 2 ++ tail.drop 2 := (List.take_append_drop 2 tail).symm
      rw [htail, ReadSocksAddr_domain t l host (tail.take 2) (tail.drop 2) fin ht hl
        (by rw [List.length_take]; omega) (by omega)]
      exact ⟨_, rfl⟩
    · rw [ReadSocksAddr_domain_port t l host tail fin ht hl]
      have hpad : 2 ≤ ((make maxAddrLen).drop (2 + host.length)).length := by
        rw [List.length_drop, make_length]; simp [maxAddrLen]; omega
      rw [readPort_short ([t, l] ++ host) _ tail fin (1 + 1) host.length
        (by simp; omega) (by omega) hpad]
      exact ⟨_, rfl⟩
  refine ⟨⟨?_, ?_⟩, hok⟩
  · intro hpanic
    by_contra hlt
    obtain ⟨a, ha⟩ := hok (by omega)
    rw [ha] at hpanic
    cases hpanic
  · intro h254
    rw [ReadSocksAddr_domain_panic t l host tail fin ht hl (by omega)]

/-- Witness for C19: the tag 3, the length byte 254 and 254 host bytes. -/
theorem ReadSocksAddr_port_slice_witness :
    ((ReadSocksAddr ⟨3 :: 254 :: (List.replicate 254 0 ++ [0, 80]), Err.EOF⟩).1 =
        Outcome.panicked ↔ 254 ≤ (254 : Byte).val) ∧
      ((254 : Byte).val ≤ 253 →
        ∃ a, (ReadSocksAddr ⟨3 :: 254 :: (List.replicate 254 0 ++ [0, 80]), Err.EOF⟩).1 =
          Outcome.ok a) :=
  ReadSocksAddr_port_slice 3 254 (List.replicate 254 0) [0, 80] Err.EOF rfl
    (by rw [List.length_replicate]; rfl)

end uot
